import Mathlib

/-!
Verification development for the measurement-overlay and camera-transition
engine of `src/source/website/embeddedwebsite.js`.

The JavaScript source is shallowly embedded:


* Numeric tick/ruler logic (`niceStep`, `formatTickNum`, `addGraduatedTicks`,
  `setScaleRuler`'s geometry core) is modelled over `ℚ` with exact
  arithmetic; JavaScript's `Math.round` and `Number.prototype.toFixed` are
  embedded by their ECMA-262 definitions on exact rationals.
* Camera-transition math (`setCameraDirection`, `resetCamera` and their
  per-frame `animate` callbacks) is modelled over `ℝ`, since the source
  computes Euclidean distances with `Math.sqrt`.
* The frame-driven mutable state (in-flight animation sessions, the ruler
  crossfade flag `rulerRebuilt`, the auto-rotate registration) is modelled
  as explicit state passing: a `World` carries the shared camera state and
  the list of in-flight sessions, and frame callbacks are explicit steps.
-/

namespace Embedded

/-! ### JavaScript numeric primitives (exact-rational embedding) -/

/-- ECMA-262 `Math.round`: the integer closest to `v`, ties toward `+∞`,
i.e. `⌊v + 1/2⌋`. -/
def jsRound (v : ℚ) : ℤ := ⌊v + 1 / 2⌋

/-- `Math.floor (Math.log10 x)` for `x > 0`, computed exactly: the unique
`k : ℤ` with `10 ^ k ≤ x < 10 ^ (k + 1)`.  For `x ≥ 1` this is
`Nat.log 10 ⌊x⌋`; for `0 < x < 1` it is `-(Nat.clog 10 ⌈x⁻¹⌉)`. -/
def qFloorLog10 (x : ℚ) : ℤ :=
  if 1 ≤ x then (Nat.log 10 ⌊x⌋.toNat : ℤ) else -(Nat.clog 10 ⌈x⁻¹⌉.toNat : ℤ)

/-! ### `niceStep` (source lines 561-571) -/

/-- Source `niceStep(length, divisions)`: pick a "nice" step of the form
`{1,2,5,10} * 10^k` close to `length / divisions`.  The JavaScript
`divisions || 10` default is modelled by the zero test. -/
def niceStep (length : ℚ) (divisions : ℤ) : ℚ :=
  let rough := length / (if divisions = 0 then 10 else (divisions : ℚ))
  let mag : ℚ := 10 ^ qFloorLog10 rough
  let residual := rough / mag
  let nice : ℚ :=
    if residual ≤ 3 / 2 then 1
    else if residual ≤ 7 / 2 then 2
    else if residual ≤ 15 / 2 then 5
    else 10
  nice * mag

/-! ### Decimal string rendering (`String(n)`, `toFixed(2)`) -/

/-- The character for a decimal digit `d < 10`. -/
def digitChar (d : ℕ) : Char := Char.ofNat (48 + d)

/-- Decimal rendering of a natural number, as JavaScript `String(n)`. -/
def natToString (n : ℕ) : String :=
  String.mk (if n = 0 then ['0'] else ((Nat.digits 10 n).reverse.map digitChar))

/-- Decimal rendering of an integer, as JavaScript `String(i)`. -/
def intToString (i : ℤ) : String :=
  if i < 0 then String.mk ('-' :: (natToString i.natAbs).data) else natToString i.natAbs

/-- The two-digit character block for `m < 100`. -/
def twoDigitChars (m : ℕ) : List Char := [digitChar (m / 10), digitChar (m % 10)]

/-- ECMA-262 `toFixed(2)` integer: the numerator over 100 of the rendered
value.  For `v ≥ 0` it is the `n` minimizing `|n/100 - v|`, the larger `n`
on ties, i.e. `⌊100 v + 1/2⌋`; a negative `v` is rendered as `-` followed
by the rendering of `-v`. -/
def toFixed2Int (v : ℚ) : ℤ :=
  if v < 0 then -⌊(-v) * 100 + 1 / 2⌋ else ⌊v * 100 + 1 / 2⌋

/-- The character list `intpart.digits ++ "." ++ two fraction digits` of a
fixed-2 rendering with numerator `n` over 100. -/
def fixedChars (n : ℕ) : List Char :=
  (natToString (n / 100)).data ++ '.' :: twoDigitChars (n % 100)

/-- Character list of `v.toFixed(2)` for the nonnegative case. -/
def toFixed2PosChars (v : ℚ) : List Char :=
  fixedChars (⌊v * 100 + 1 / 2⌋).toNat

/-- ECMA-262 `v.toFixed(2)` on an exact rational. -/
def toFixed2Str (v : ℚ) : String :=
  if v < 0 then String.mk ('-' :: toFixed2PosChars (-v)) else String.mk (toFixed2PosChars v)

/-- The regex replacement `s.replace(/\.?0+$/, '')` of source line 581:
strip a maximal run of trailing `'0'` characters together with a `'.'`
immediately preceding that run. -/
def stripTrailing (s : String) : String :=
  if s.data.reverse.head? = some '0' then
    String.mk
      (if (s.data.reverse.dropWhile fun c => c == '0').head? = some '.' then
        ((s.data.reverse.dropWhile fun c => c == '0').tail).reverse
      else (s.data.reverse.dropWhile fun c => c == '0').reverse)
  else s

/-- The character list left of a fixed-2 rendering with numerator `n`
after the trailing-zero strip (used to characterize `stripTrailing` on
`toFixed2Str` outputs). -/
def strippedFixedChars (n : ℕ) : List Char :=
  if n % 100 = 0 then (natToString (n / 100)).data
  else if n % 10 = 0 then
    (natToString (n / 100)).data ++ ['.', digitChar (n % 100 / 10)]
  else fixedChars n

/-! ### `formatTickNum` (source lines 574-583) -/

/-- Source `formatTickNum(val)`: `'0'` for `|val| < 1e-9`; the integer
string of `Math.round(val)` when `val` is an integer or within `1e-9` of
one; otherwise `val.toFixed(2)` with trailing zeros (and a then-trailing
decimal point) stripped. -/
def formatTickNum (v : ℚ) : String :=
  if |v| < 1 / 1000000000 then "0"
  else if v.den = 1 ∨ |v - (jsRound v : ℚ)| < 1 / 1000000000 then intToString (jsRound v)
  else stripTrailing (toFixed2Str v)

/-- The rational value denoted by `v.toFixed(2)`: `toFixed2Int v / 100`. -/
def toFixed2Val (v : ℚ) : ℚ := (toFixed2Int v : ℚ) / 100

/-! ### A standard decimal parser (for the round-trip property) -/

/-- Accumulate decimal digit characters into a natural number. -/
def parseDigits (l : List Char) : ℕ :=
  l.foldl (fun a c => a * 10 + (c.toNat - 48)) 0

/-- Parse an unsigned decimal string `digits[.digits]`. -/
def parseUnsigned (l : List Char) : ℚ :=
  let ip := l.takeWhile (fun c => c != '.')
  let fp := (l.dropWhile (fun c => c != '.')).tail
  (parseDigits ip : ℚ) + (parseDigits fp : ℚ) / 10 ^ fp.length

/-- Parse an optionally negated decimal string. -/
def parseNumber (s : String) : ℚ :=
  match s.data with
  | '-' :: rest => -(parseUnsigned rest)
  | l => parseUnsigned l

/-! ### Tick planning (source lines 647-659) -/

/-- The quantities computed by `addGraduatedTicks` before its tick walk. -/
structure Plan where
  labelWidth : ℚ
  targetDivs : ℤ
  step : ℚ
  showMinor : Bool
  tickStep : ℚ
  deriving Repr, DecidableEq

/-- Source lines 652-659 for a given label footprint `labelWidth`:
`maxLabels = max(2, floor(length / (labelWidth * 1.5)))`,
`targetDivs = min(10, maxLabels)`, `step = niceStep(length, targetDivs)`,
minor ticks only when `step / 2 > labelWidth * 1.2`. -/
def mkPlan (length labelWidth : ℚ) : Plan :=
  let maxLabels : ℤ := max 2 ⌊length / (labelWidth * (3 / 2))⌋
  let targetDivs : ℤ := min 10 maxLabels
  let step := niceStep length targetDivs
  let showMinor := decide (labelWidth * (6 / 5) < step / 2)
  ⟨labelWidth, targetDivs, step, showMinor, if showMinor then step / 2 else step⟩

/-- The plan as `addGraduatedTicks` derives it from its `spriteScale`
argument: `numScale = spriteScale * 0.35`, `labelWidth = numScale * 3`
(source lines 648-651). -/
def tickPlan (length spriteScale : ℚ) : Plan :=
  mkPlan length (spriteScale * (35 / 100) * 3)

/-- Source line 674: a walk position `d` is a major tick when
`|round(d/step) * step - d| < step * 0.01`. -/
def isMajorAt (step d : ℚ) : Bool :=
  decide (|(jsRound (d / step) : ℚ) * step - d| < step * (1 / 100))

/-- The scalar output of `addGraduatedTicks`: tick marks and numeric
labels, each carried with its distance `t` from the ruler start (the
source places them at `start + t • dir`; callers pass axis-aligned
segments, so `t` determines the geometry). -/
structure TickWalk where
  marks : List (ℚ × Bool)
  labels : List (ℚ × String)
  deriving Repr, DecidableEq

/-- Number of loop iterations of the walk `for (d = 0; d <= length +
step * 0.001; d += tickStep)` in exact arithmetic: indices
`0 .. ⌊(length + step/1000) / tickStep⌋`. -/
def tickWalkN (length : ℚ) (p : Plan) : ℕ :=
  (⌊(length + p.step * (1 / 1000)) / p.tickStep⌋).toNat

/-- One iteration of the walk (source lines 671-694): `d = i * tickStep`;
skip when `d < -1e-10`; `t = min d length`; skip when `t < step * 0.05`
or `t > length - step * 0.05`; otherwise emit a mark at `t`, major per
`isMajorAt`. -/
def walkEntry (length : ℚ) (p : Plan) (i : ℕ) : Option (ℚ × Bool) :=
  let d : ℚ := (i : ℚ) * p.tickStep
  if d < -(1 / 10 ^ 10) then none
  else
    let t := min d length
    if t < p.step * (5 / 100) ∨ length - p.step * (5 / 100) < t then none
    else some (t, isMajorAt p.step d)

/-- The non-degenerate body of `addGraduatedTicks`: the walk marks, and
the label list consisting of the fixed `"0"` start label, the numeric
labels of the major walk marks, and the full-length end label. -/
def tickWalk (length : ℚ) (p : Plan) : TickWalk :=
  let entries := (List.range (tickWalkN length p + 1)).filterMap (walkEntry length p)
  ⟨entries,
   (0, "0") ::
     (entries.filterMap fun e => if e.2 then some (e.1, formatTickNum e.1) else none) ++
       [(length, formatTickNum length)]⟩

/-- Source `addGraduatedTicks` (lines 642-706), reduced to its scalar
content: the degenerate guard `length < 1e-10` returns an empty result
before any label or mark is created. -/
def addGraduatedTicks (length spriteScale : ℚ) : TickWalk :=
  if length < 1 / 10 ^ 10 then ⟨[], []⟩
  else tickWalk length (tickPlan length spriteScale)

/-! ### `setScaleRuler` geometry core (source lines 744-962) -/

/-- A rational 3-vector (bounding-box sizes). -/
structure Vec3Q where
  x : ℚ
  y : ℚ
  z : ℚ
  deriving Repr, DecidableEq

/-- The per-axis outputs of one `setScaleRuler` build: each axis's
graduated-tick walk and its always-created dimension label
`size.axis.toFixed(2)` (source lines 846, 894, 942). -/
structure RulerBuild where
  xTicks : TickWalk
  yTicks : TickWalk
  zTicks : TickWalk
  xDim : String
  yDim : String
  zDim : String
  deriving Repr, DecidableEq

/-- The measurement core of `setScaleRuler` for a bounding box of size
`size`: `maxDim = max(size.x, size.y, size.z)`,
`spriteScale = maxDim * 0.055`, then one graduated-tick walk and one
dimension label per axis. -/
def buildRuler (size : Vec3Q) : RulerBuild :=
  let maxDim := max size.x (max size.y size.z)
  let spriteScale := maxDim * (55 / 1000)
  ⟨addGraduatedTicks size.x spriteScale,
   addGraduatedTicks size.y spriteScale,
   addGraduatedTicks size.z spriteScale,
   toFixed2Str size.x, toFixed2Str size.y, toFixed2Str size.z⟩

/-- Bridge-level state for `setScaleRuler`: whether an object is loaded
(`this.threeObject`), the measured bounding-box size, and the current
overlay. -/
structure RulerState where
  loaded : Bool
  boxSize : Vec3Q
  ruler : Option RulerBuild
  deriving Repr, DecidableEq

/-- Source `window.setScaleRuler` (lines 744-962) at the bridge level:
the no-target guard (line 745) returns before anything else; disabling
clears the overlay; enabling rebuilds it from the bounding box. -/
def setScaleRuler (st : RulerState) (enabled : Bool) : RulerState :=
  if st.loaded = false then st
  else if enabled = false then { st with ruler := none }
  else { st with ruler := some (buildRuler st.boxSize) }

/-! ### Ruler crossfade during a camera transition (source lines 1073-1102)

The per-frame callback, when a ruler is active (`hasRuler`), drives the
overlay opacity from the frame's progress `raw` and the closure-local
`rulerRebuilt` flag.  A frame is modelled by the ordered list of opacity
factors it writes (`setRulerGroupOpacity` calls) and the number of
overlay rebuilds (`setScaleRuler(true, …)` calls) it performs. -/

/-- The opacity writes and rebuilds of one frame. -/
structure FadeFrame where
  writes : List ℚ
  rebuilds : ℕ
  deriving Repr, DecidableEq

/-- One frame of the ruler crossfade at progress `raw`, given the current
`rulerRebuilt` flag; returns the frame's effects and the updated flag.
Source: lines 1074-1086 (crossfade block) then lines 1088-1102
(completion block, which on `raw ≥ 1` writes opacity 1; its own
`!rulerRebuilt` rebuild is unreachable with a ruler active, because the
crossfade block has already set the flag on any frame with `raw ≥ 0.5`). -/
def rulerFrame (rebuilt : Bool) (raw : ℚ) : FadeFrame × Bool :=
  if raw < 1 / 2 then
    (⟨[1 - raw * 2], 0⟩, rebuilt)
  else if rebuilt = false then
    (⟨0 :: ((raw - 1 / 2) * 2) :: (if 1 ≤ raw then [1] else []), 1⟩, true)
  else
    (⟨((raw - 1 / 2) * 2) :: (if 1 ≤ raw then [1] else []), 0⟩, true)

/-- Run the frames of one transition session over the listed `raw`
values, starting from `rulerRebuilt = false` as `setCameraDirection`
does (source line 1043). -/
def runRulerAux (rebuilt : Bool) : List ℚ → List FadeFrame
  | [] => []
  | raw :: rest =>
      let p := rulerFrame rebuilt raw
      p.1 :: runRulerAux p.2 rest

/-- The frame effects of a whole transition. -/
def runRuler (raws : List ℚ) : List FadeFrame := runRulerAux false raws

/-! ### Auto-rotate registration (source lines 1221-1247) -/

/-- The module state of the auto-rotate loop: the parameters captured by
the live `tick` closure (if any), and the number of pending
`requestAnimationFrame` registrations it owns. -/
structure AutoRotate where
  running : Option (ℚ × ℚ)
  pending : ℕ
  deriving Repr, DecidableEq

/-- Bridge operations touching the auto-rotate loop: a
`startAutoRotate(hSpeed, tiltDeg)` call, a `stopAutoRotate()` call, or
one animation-frame delivery to the registered `tick`. -/
inductive ArOp where
  | start (hSpeed tiltDeg : ℚ)
  | stop
  | frame
  deriving Repr, DecidableEq

/-- One operation on the auto-rotate state.  `start` returns immediately
when `autoRotateId !== null` (source line 1225); otherwise it registers
`tick` with the newly captured parameters.  `tick` re-registers itself
(line 1236).  `stop` cancels the registration and clears the id
(lines 1242-1245). -/
def arStep (st : AutoRotate) (op : ArOp) : AutoRotate :=
  match op with
  | .start h t => if st.running.isSome then st else ⟨some (h, t), 1⟩
  | .stop => ⟨none, 0⟩
  | .frame => if st.running.isSome then { st with pending := 1 } else st

/-- Run a sequence of auto-rotate operations from the initial state
(`autoRotateId = null`). -/
def arRun (ops : List ArOp) : AutoRotate :=
  ops.foldl arStep ⟨none, 0⟩

/-! ### Camera transitions (source lines 1021-1105, 1137-1219)

The camera math uses `Math.sqrt`, so it is embedded over `ℝ`. -/

noncomputable section CameraModel

attribute [local instance] Classical.propDecidable

/-- A real 3-vector (camera coordinates). -/
@[ext]
structure Vec3 where
  x : ℝ
  y : ℝ
  z : ℝ

instance : Add Vec3 := ⟨fun a b => ⟨a.x + b.x, a.y + b.y, a.z + b.z⟩⟩

instance : Sub Vec3 := ⟨fun a b => ⟨a.x - b.x, a.y - b.y, a.z - b.z⟩⟩

instance : SMul ℝ Vec3 := ⟨fun r a => ⟨r * a.x, r * a.y, r * a.z⟩⟩

/-- Euclidean length, as the source computes it with `Math.sqrt`. -/
def norm3 (v : Vec3) : ℝ := Real.sqrt (v.x ^ 2 + v.y ^ 2 + v.z ^ 2)

/-- The `switch (direction)` table of `setCameraDirection` (source lines
1023-1031): direction unit vector and target up vector per token;
`default: return` is `none`. -/
def dirTable (direction : String) : Option (Vec3 × Vec3) :=
  if direction = "front" then some (⟨0, 0, 1⟩, ⟨0, 1, 0⟩)
  else if direction = "back" then some (⟨0, 0, -1⟩, ⟨0, 1, 0⟩)
  else if direction = "left" then some (⟨-1, 0, 0⟩, ⟨0, 1, 0⟩)
  else if direction = "right" then some (⟨1, 0, 0⟩, ⟨0, 1, 0⟩)
  else if direction = "top" then some (⟨0, 1, 0⟩, ⟨0, 0, -1⟩)
  else if direction = "bottom" then some (⟨0, -1, 0⟩, ⟨0, 0, 1⟩)
  else none

/-- The state captured by one `animate` closure of `setCameraDirection`
or `resetCamera`: start/target camera data, the fixed `center` and
`dist`, and the closure-local `rulerRebuilt` flag. -/
structure Session where
  center : Vec3
  dist : ℝ
  startEye : Vec3
  startUp : Vec3
  targetEye : Vec3
  upVec : Vec3
  direction : String
  hasRuler : Bool
  rulerRebuilt : Bool

/-- Session construction in `setCameraDirection` (source lines
1033-1045): `dist = |eye - center|`, `targetEye = center + dirVec *
dist`, with `rulerRebuilt` initialized to `false`. -/
def mkSession (center eye up dirVec upVec : Vec3) (direction : String)
    (hasRuler : Bool) : Session :=
  let dist := Real.sqrt ((eye.x - center.x) ^ 2 + (eye.y - center.y) ^ 2 +
    (eye.z - center.z) ^ 2)
  { center := center
    dist := dist
    startEye := eye
    startUp := up
    targetEye := ⟨center.x + dirVec.x * dist, center.y + dirVec.y * dist,
      center.z + dirVec.z * dist⟩
    upVec := upVec
    direction := direction
    hasRuler := hasRuler
    rulerRebuilt := false }

/-- The cubic ease-out `t = 1 - (1 - raw)^3` (source line 1048). -/
def easeOutCubic (raw : ℝ) : ℝ := 1 - (1 - raw) ^ 3

/-- Linear interpolation of the eye (source lines 1051-1053). -/
def lerpEye (s : Session) (raw : ℝ) : Vec3 :=
  let t := easeOutCubic raw
  ⟨s.startEye.x + (s.targetEye.x - s.startEye.x) * t,
   s.startEye.y + (s.targetEye.y - s.startEye.y) * t,
   s.startEye.z + (s.targetEye.z - s.startEye.z) * t⟩

/-- `curDist` of the frame (source lines 1054-1055). -/
def curDist (s : Session) (raw : ℝ) : ℝ := norm3 (lerpEye s raw - s.center)

/-- The eye the frame writes: the interpolated eye re-projected onto the
sphere of radius `dist` around `center` when `curDist > 0`, the raw
interpolation otherwise (source lines 1051-1060). -/
def animEye (s : Session) (raw : ℝ) : Vec3 :=
  if 0 < curDist s raw then
    ⟨s.center.x + ((lerpEye s raw).x - s.center.x) / curDist s raw * s.dist,
     s.center.y + ((lerpEye s raw).y - s.center.y) / curDist s raw * s.dist,
     s.center.z + ((lerpEye s raw).z - s.center.z) / curDist s raw * s.dist⟩
  else lerpEye s raw

/-- Linear interpolation of the up vector (source lines 1063-1065). -/
def lerpUp (s : Session) (raw : ℝ) : Vec3 :=
  let t := easeOutCubic raw
  ⟨s.startUp.x + (s.upVec.x - s.startUp.x) * t,
   s.startUp.y + (s.upVec.y - s.startUp.y) * t,
   s.startUp.z + (s.upVec.z - s.startUp.z) * t⟩

/-- `uLen` of the frame (source line 1066). -/
def upLen (s : Session) (raw : ℝ) : ℝ := norm3 (lerpUp s raw)

/-- The up vector the frame writes: normalized when `uLen > 0`
(source lines 1063-1067). -/
def animUp (s : Session) (raw : ℝ) : Vec3 :=
  if 0 < upLen s raw then
    ⟨(lerpUp s raw).x / upLen s raw, (lerpUp s raw).y / upLen s raw,
     (lerpUp s raw).z / upLen s raw⟩
  else lerpUp s raw

/-- The shared viewer state plus every in-flight `animate` closure.  The
source keeps no session registry: each `setCameraDirection` call merely
creates another closure chain, so the model appends to `sessions` and
never removes or invalidates an entry. -/
structure World where
  loaded : Bool
  center : Vec3
  eye : Vec3
  up : Vec3
  viewDir : String
  hasRuler : Bool
  sessions : List Session

/-- `window.setCameraDirection` (source lines 1021-1105): an invalid
token returns without effect; otherwise a new session closure is created
from the current camera and scheduled.  There is no check of
`this.threeObject` and no cancellation of earlier sessions. -/
def setCameraDirectionW (w : World) (direction : String) : World :=
  match dirTable direction with
  | none => w
  | some dv =>
      { w with sessions :=
          w.sessions ++ [mkSession w.center w.eye w.up dv.1 dv.2 direction w.hasRuler] }

/-- `window.resetCamera` (source lines 1137-1219): same animation with a
target at eye level when the ruler is shown, else 15° above, and the
view direction reset to `front`.  Again no loaded-object check. -/
def resetCameraW (w : World) : World :=
  let dist := Real.sqrt ((w.eye.x - w.center.x) ^ 2 + (w.eye.y - w.center.y) ^ 2 +
    (w.eye.z - w.center.z) ^ 2)
  let targetEye : Vec3 :=
    if w.hasRuler = true then ⟨w.center.x, w.center.y, w.center.z + dist⟩
    else ⟨w.center.x, w.center.y + Real.sin (15 * Real.pi / 180) * dist,
      w.center.z + Real.cos (15 * Real.pi / 180) * dist⟩
  { w with sessions := w.sessions ++
      [{ center := w.center, dist := dist, startEye := w.eye, startUp := w.up,
         targetEye := targetEye, upVec := ⟨0, 1, 0⟩, direction := "front",
         hasRuler := w.hasRuler, rulerRebuilt := false }] }

/-- The `currentViewDirection` write of one frame: set at the crossfade
midpoint rebuild (source line 1078) or at completion when no rebuild
happened (lines 1093-1095); otherwise unchanged. -/
def frameViewDir (s : Session) (raw : ℝ) (old : String) : String :=
  if s.hasRuler = true ∧ 1 / 2 ≤ raw ∧ s.rulerRebuilt = false then s.direction
  else if 1 ≤ raw ∧ s.rulerRebuilt = false then s.direction
  else old

/-- The session's own flag update for one frame. -/
def stepSession (s : Session) (raw : ℝ) : Session :=
  if s.hasRuler = true ∧ 1 / 2 ≤ raw then { s with rulerRebuilt := true } else s

/-- Delivery of one animation frame to the `i`-th in-flight session at
progress `raw`: the callback writes the camera eye/up and possibly
`currentViewDirection`, with no check that it still owns the newest
session. -/
def frameW (w : World) (i : ℕ) (raw : ℝ) : World :=
  match w.sessions[i]? with
  | none => w
  | some s =>
      { w with
        eye := animEye s raw
        up := animUp s raw
        viewDir := frameViewDir s raw w.viewDir
        sessions := w.sessions.set i (stepSession s raw) }

end CameraModel

/-! ## Theorems -/

/-! ### C10: auto-rotate start is guarded -/

/-- At most one auto-rotate frame-callback registration exists after any
sequence of operations. -/
theorem arRun_pending_le_one (ops : List ArOp) : (arRun ops).pending ≤ 1 := by
  have h : ∀ (l : List ArOp) (st : AutoRotate), st.pending ≤ 1 →
      (l.foldl arStep st).pending ≤ 1 := by
    intro l
    induction l with
    | nil => intro st hst; exact hst
    | cons op rest ih =>
      intro st hst
      refine ih _ ?_
      cases op with
      | start hS tD =>
        by_cases hr : st.running.isSome <;> simp [arStep, hr, hst]
      | stop => simp [arStep]
      | frame =>
        by_cases hr : st.running.isSome <;> simp [arStep, hr, hst]
  exact h ops ⟨none, 0⟩ (by simp)

/-- C10: calling `startAutoRotate` while a loop is already registered is a
no-op — the state (including the original captured `hSpeed`/`tiltDeg`) is
unchanged and the new arguments are discarded; a frame keeps the original
parameters; at most one frame-callback registration ever exists; and new
parameters take effect only after an intervening `stopAutoRotate`. -/
theorem c10_startAutoRotate_guard :
    (∀ (st : AutoRotate) (h t : ℚ), st.running.isSome → arStep st (.start h t) = st)
    ∧ (∀ st : AutoRotate, (arStep st .frame).running = st.running)
    ∧ (∀ ops : List ArOp, (arRun ops).pending ≤ 1)
    ∧ (∀ h1 t1 h2 t2 : ℚ,
        (arRun [.start h1 t1, .start h2 t2]).running = some (h1, t1))
    ∧ (∀ h1 t1 h2 t2 : ℚ,
        (arRun [.start h1 t1, .stop, .start h2 t2]).running = some (h2, t2)) := by
  refine ⟨?_, ?_, arRun_pending_le_one, ?_, ?_⟩
  · intro st h t hr
    simp [arStep, hr]
  · intro st
    by_cases hr : st.running.isSome <;> simp [arStep, hr]
  · intro h1 t1 h2 t2
    simp [arRun, arStep]
  · intro h1 t1 h2 t2
    simp [arRun, arStep]

/-- Witness for C10 at concrete inputs. -/
theorem c10_startAutoRotate_guard_witness :
    ((⟨some (1, 2), 1⟩ : AutoRotate).running.isSome
      ∧ arStep ⟨some (1, 2), 1⟩ (.start 3 4) = ⟨some (1, 2), 1⟩)
    ∧ (arRun [.start 1 2, .start 3 4]).running = some (1, 2) :=
  ⟨⟨by decide, c10_startAutoRotate_guard.1 ⟨some (1, 2), 1⟩ 3 4 (by decide)⟩,
   c10_startAutoRotate_guard.2.2.2.1 1 2 3 4⟩

/-! ### C2: crossfade and midpoint rebuild -/

/-- The `rulerRebuilt` flag after one frame: set exactly when the frame's
`raw` has reached `1/2` (or it was set before). -/
theorem rulerFrame_flag (b : Bool) (raw : ℚ) :
    (rulerFrame b raw).2 = (b || decide (1 / 2 ≤ raw)) := by
  by_cases h1 : raw < 1 / 2
  · have hd : decide (1 / 2 ≤ raw) = false := decide_eq_false (not_le.2 h1)
    unfold rulerFrame
    rw [if_pos h1, hd, Bool.or_false]
  · have hd : decide (1 / 2 ≤ raw) = true := decide_eq_true (not_lt.1 h1)
    unfold rulerFrame
    rw [if_neg h1]
    cases b
    · rw [if_pos rfl, hd, Bool.false_or]
    · rw [if_neg (by decide : ¬(true = false)), hd, Bool.true_or]

/-- The rebuild count of one frame. -/
theorem rulerFrame_rebuilds (b : Bool) (raw : ℚ) :
    (rulerFrame b raw).1.rebuilds = if b = false ∧ 1 / 2 ≤ raw then 1 else 0 := by
  by_cases h1 : raw < 1 / 2
  · have hn : ¬(b = false ∧ 1 / 2 ≤ raw) := fun h => absurd h.2 (not_le.2 h1)
    unfold rulerFrame
    rw [if_pos h1, if_neg hn]
  · cases b
    · have hp : false = false ∧ 1 / 2 ≤ raw := ⟨rfl, not_lt.1 h1⟩
      unfold rulerFrame
      rw [if_neg h1, if_pos rfl, if_pos hp]
    · have hn : ¬(true = false ∧ 1 / 2 ≤ raw) := fun h => by simpa using h.1
      unfold rulerFrame
      rw [if_neg h1, if_neg (by decide : ¬(true = false)), if_neg hn]

/-- The final opacity write of one frame. -/
theorem rulerFrame_writes_getLast (b : Bool) (raw : ℚ) (h01 : 0 ≤ raw ∧ raw ≤ 1) :
    (rulerFrame b raw).1.writes.getLast? =
      some (if raw < 1 / 2 then 1 - raw * 2 else (raw - 1 / 2) * 2) := by
  by_cases h1 : raw < 1 / 2
  · unfold rulerFrame
    simp only [if_pos h1]
    rfl
  · unfold rulerFrame
    simp only [if_neg h1]
    by_cases hone : (1 : ℚ) ≤ raw
    · have heq : raw = 1 := le_antisymm h01.2 hone
      subst heq
      cases b
      · rw [if_pos rfl]
        norm_num
      · rw [if_neg (by decide : ¬(true = false))]
        norm_num
    · simp only [if_neg hone]
      cases b
      · rw [if_pos rfl]
        simp
      · rw [if_neg (by decide : ¬(true = false))]
        simp

/-- A rebuilding frame first forces opacity `0`. -/
theorem rulerFrame_writes_head (raw : ℚ) (hr : 1 / 2 ≤ raw) :
    (rulerFrame false raw).1.writes.head? = some 0 := by
  unfold rulerFrame
  rw [if_neg (not_lt.2 hr), if_pos rfl]
  rfl

/-- Frame `j` of a run equals `rulerFrame` applied at the flag determined
by whether any earlier frame's `raw` reached `1/2`. -/
theorem runRulerAux_get (raws : List ℚ) : ∀ (b : Bool) (j : ℕ),
    (runRulerAux b raws)[j]? =
      (raws[j]?).map fun raw =>
        (rulerFrame (b || ((raws.take j).any fun r => decide (1 / 2 ≤ r))) raw).1 := by
  induction raws with
  | nil => intro b j; simp [runRulerAux]
  | cons raw rest ih =>
    intro b j
    cases j with
    | zero => simp [runRulerAux]
    | succ k =>
      simp only [runRulerAux, List.getElem?_cons_succ, ih, rulerFrame_flag,
        List.take_succ_cons, List.any_cons, Bool.or_assoc]

/-- Total number of overlay rebuilds over a run: one when some frame
reaches `raw ≥ 1/2` (and the flag began clear), zero otherwise. -/
theorem runRulerAux_rebuilds_sum (raws : List ℚ) : ∀ b : Bool,
    ((runRulerAux b raws).map FadeFrame.rebuilds).sum =
      if b = false ∧ raws.any (fun r => decide (1 / 2 ≤ r)) then 1 else 0 := by
  induction raws with
  | nil => intro b; simp [runRulerAux]
  | cons raw rest ih =>
    intro b
    simp only [runRulerAux, List.map_cons, List.sum_cons, ih, rulerFrame_flag,
      rulerFrame_rebuilds, List.any_cons]
    by_cases h1 : 1 / 2 ≤ raw
    · have hd : decide (1 / 2 ≤ raw) = true := decide_eq_true h1
      have hnlt : ¬raw < 1 / 2 := not_lt.2 h1
      cases b
      · rw [one_div] at h1 hnlt
        simp [hd, h1, hnlt]
      · simp [hd, hnlt]
    · have hd : decide (1 / 2 ≤ raw) = false := decide_eq_false h1
      have hlt : raw < 1 / 2 := not_le.1 h1
      cases b
      · rw [one_div] at h1 hlt
        simp [hd, h1, hlt]
      · rw [one_div] at h1 hlt
        simp [hd, h1, hlt]

/-- No frame of the take-prefix reached `1/2` iff every earlier frame's
`raw` is below `1/2`. -/
theorem any_take_half_eq_false_iff (raws : List ℚ) (j : ℕ) :
    (((raws.take j).any fun r => decide (1 / 2 ≤ r)) = false) ↔
      ∀ k, (hk : k < j) → (hk2 : k < raws.length) → raws.get ⟨k, hk2⟩ < 1 / 2 := by
  rw [List.any_eq_false]
  constructor
  · intro h k hk hk2
    have hmem : raws.get ⟨k, hk2⟩ ∈ raws.take j := by
      rw [List.mem_iff_getElem]
      refine ⟨k, ?_, ?_⟩
      · simp only [List.length_take]
        omega
      · simp [List.getElem_take, List.get_eq_getElem]
    have hx := h _ hmem
    simp only [decide_eq_true_eq] at hx
    exact not_le.1 hx
  · intro h x hx
    rw [List.mem_iff_getElem] at hx
    obtain ⟨k, hk, rfl⟩ := hx
    have hlen : k < j ∧ k < raws.length := by
      simp only [List.length_take] at hk
      omega
    have hlt := h k hlen.1 hlen.2
    simp only [List.get_eq_getElem] at hlt
    simp only [List.getElem_take, decide_eq_true_eq]
    exact not_le.2 hlt

/-- C2: during a directed transition with an active ruler, every frame
with `raw < 1/2` writes opacity `1 - 2*raw`; the overlay is rebuilt
exactly once over the whole run, namely on the first frame whose `raw`
reaches `1/2` (even if `raw` jumps from below `1/2` straight to `1`),
and that frame first forces opacity `0`; every frame with `raw ≥ 1/2`
finally writes opacity `2*(raw - 1/2)`. -/
theorem c2_crossfade_rebuild_once (raws : List ℚ)
    (hR : ∀ r ∈ raws, 0 ≤ r ∧ r ≤ 1) (hHit : ∃ r ∈ raws, 1 / 2 ≤ r) :
    ((runRuler raws).map FadeFrame.rebuilds).sum = 1
    ∧ ∀ j, (hj : j < raws.length) →
        (((runRuler raws)[j]?).map FadeFrame.rebuilds =
            some (if 1 / 2 ≤ raws.get ⟨j, hj⟩ ∧
                (∀ k, (hk : k < j) → raws.get ⟨k, by omega⟩ < 1 / 2) then 1 else 0))
        ∧ (((runRuler raws)[j]?).map (fun f => f.writes.getLast?) =
            some (some (if raws.get ⟨j, hj⟩ < 1 / 2 then 1 - raws.get ⟨j, hj⟩ * 2
              else (raws.get ⟨j, hj⟩ - 1 / 2) * 2)))
        ∧ ((1 / 2 ≤ raws.get ⟨j, hj⟩ ∧
              (∀ k, (hk : k < j) → raws.get ⟨k, by omega⟩ < 1 / 2)) →
            ((runRuler raws)[j]?).map (fun f => f.writes.head?) = some (some 0)) := by
  constructor
  · rw [runRuler, runRulerAux_rebuilds_sum]
    obtain ⟨r, hr, hr2⟩ := hHit
    have hany : raws.any (fun x => decide (1 / 2 ≤ x)) = true :=
      List.any_eq_true.2 ⟨r, hr, decide_eq_true hr2⟩
    rw [if_pos ⟨rfl, hany⟩]
  · intro j hj
    have hget : (runRuler raws)[j]? =
        some ((rulerFrame ((raws.take j).any fun r => decide (1 / 2 ≤ r))
          (raws.get ⟨j, hj⟩)).1) := by
      rw [runRuler, runRulerAux_get raws false j, Bool.false_or,
        List.getElem?_eq_getElem hj]
      simp [List.get_eq_getElem]
    have hmemraw : raws.get ⟨j, hj⟩ ∈ raws := List.get_mem raws j hj
    have hraw01 : 0 ≤ raws.get ⟨j, hj⟩ ∧ raws.get ⟨j, hj⟩ ≤ 1 := hR _ hmemraw
    have hcond : (1 / 2 ≤ raws.get ⟨j, hj⟩ ∧
        (∀ k, (hk : k < j) → raws.get ⟨k, by omega⟩ < 1 / 2)) ↔
        (1 / 2 ≤ raws.get ⟨j, hj⟩ ∧
          ((raws.take j).any fun r => decide (1 / 2 ≤ r)) = false) := by
      constructor
      · rintro ⟨h1, h2⟩
        exact ⟨h1, (any_take_half_eq_false_iff raws j).2 fun k hk hk2 => h2 k hk⟩
      · rintro ⟨h1, h2⟩
        exact ⟨h1, fun k hk => (any_take_half_eq_false_iff raws j).1 h2 k hk (by omega)⟩
    refine ⟨?_, ?_, ?_⟩
    · rw [hget, Option.map_some', rulerFrame_rebuilds]
      exact congrArg some (if_congr (Iff.trans and_comm hcond.symm) rfl rfl)
    · rw [hget, Option.map_some', rulerFrame_writes_getLast _ _ hraw01]
    · intro hc
      have hfl := (hcond.1 hc).2
      rw [hget, Option.map_some', hfl, rulerFrame_writes_head _ hc.1]

/-- Witness for C2: a run whose second frame jumps from `raw = 1/4`
straight past the midpoint to `raw = 1`. -/
theorem c2_crossfade_rebuild_once_witness :
    (∀ r ∈ [(1 : ℚ)/4, 1], 0 ≤ r ∧ r ≤ 1)
    ∧ (∃ r ∈ [(1 : ℚ)/4, 1], 1 / 2 ≤ r)
    ∧ ((runRuler [(1 : ℚ)/4, 1]).map FadeFrame.rebuilds).sum = 1 :=
  ⟨by norm_num, ⟨1, by norm_num⟩,
    (c2_crossfade_rebuild_once [(1 : ℚ)/4, 1] (by norm_num) ⟨1, by norm_num⟩).1⟩

/-! ### C7: formatTickNum -/

theorem stringMk_data (l : List Char) : (String.mk l).data = l := rfl

theorem digitChar_toNat (d : ℕ) (hd : d < 10) : (digitChar d).toNat - 48 = d := by
  interval_cases d <;> decide

theorem digitChar_bne_dot (d : ℕ) (hd : d < 10) : (digitChar d != '.') = true := by
  interval_cases d <;> decide

theorem digitChar_ne_dot (d : ℕ) (hd : d < 10) : digitChar d ≠ '.' := by
  interval_cases d <;> decide

theorem digitChar_ne_dash (d : ℕ) (hd : d < 10) : digitChar d ≠ '-' := by
  interval_cases d <;> decide

theorem digitChar_eq_zero_iff (d : ℕ) (hd : d < 10) :
    digitChar d = '0' ↔ d = 0 := by
  interval_cases d <;> simp <;> decide

theorem digitChar_beq_zero (d : ℕ) (hd : d < 10) :
    (digitChar d == '0') = decide (d = 0) := by
  interval_cases d <;> decide

/-- Every character of the decimal rendering of a natural number is a
digit character. -/
theorem natToString_chars (n : ℕ) :
    ∀ c ∈ (natToString n).data, ∃ d, d < 10 ∧ c = digitChar d := by
  intro c hc
  unfold natToString at hc
  rw [stringMk_data] at hc
  by_cases hn : n = 0
  · rw [if_pos hn] at hc
    simp only [List.mem_singleton] at hc
    exact ⟨0, by norm_num, by rw [hc]; rfl⟩
  · rw [if_neg hn] at hc
    rw [List.mem_map] at hc
    obtain ⟨d, hd, rfl⟩ := hc
    exact ⟨d, Nat.digits_lt_base (by norm_num) (List.mem_reverse.1 hd), rfl⟩

theorem natToString_ne_nil (n : ℕ) : (natToString n).data ≠ [] := by
  unfold natToString
  rw [stringMk_data]
  by_cases hn : n = 0
  · rw [if_pos hn]
    simp
  · rw [if_neg hn]
    simp [Nat.digits_ne_nil_iff_ne_zero.2 hn]

theorem natToString_head_ne_dash (n : ℕ) :
    (natToString n).data.head? ≠ some '-' := by
  intro h
  cases hl : (natToString n).data with
  | nil => exact natToString_ne_nil n hl
  | cons c rest =>
    rw [hl] at h
    simp only [List.head?_cons, Option.some_inj] at h
    obtain ⟨d, hd, hcd⟩ := natToString_chars n c (by rw [hl]; exact List.mem_cons_self c rest)
    exact digitChar_ne_dash d hd (by rw [← hcd, h])

/-- Folding decimal digit characters equals `Nat.ofDigits` of the
little-endian digits. -/
theorem parseDigits_eq_ofDigits : ∀ ds : List ℕ, (∀ d ∈ ds, d < 10) → ∀ acc : ℕ,
    ((ds.reverse.map digitChar).foldl (fun a c => a * 10 + (c.toNat - 48)) acc) =
      acc * 10 ^ ds.length + Nat.ofDigits 10 ds := by
  intro ds
  induction ds with
  | nil => intro _ acc; simp
  | cons d rest ih =>
    intro h acc
    have hd : d < 10 := h d (List.mem_cons_self d rest)
    have hrest : ∀ x ∈ rest, x < 10 := fun x hx => h x (List.mem_cons_of_mem d hx)
    rw [List.reverse_cons, List.map_append, List.foldl_append, ih hrest acc]
    simp only [List.map_cons, List.map_nil, List.foldl_cons, List.foldl_nil]
    rw [digitChar_toNat d hd, Nat.ofDigits_cons, List.length_cons]
    ring

theorem parseDigits_natToString (n : ℕ) : parseDigits (natToString n).data = n := by
  unfold natToString parseDigits
  rw [stringMk_data]
  by_cases hn : n = 0
  · rw [if_pos hn, hn]
    rfl
  · rw [if_neg hn]
    rw [parseDigits_eq_ofDigits (Nat.digits 10 n)
      (fun d hd => Nat.digits_lt_base (by norm_num) hd) 0]
    rw [Nat.ofDigits_digits]
    ring

theorem parseDigits_twoDigitChars (m : ℕ) (hm : m < 100) :
    parseDigits (twoDigitChars m) = m := by
  unfold twoDigitChars parseDigits
  simp only [List.foldl_cons, List.foldl_nil]
  rw [Nat.zero_mul, Nat.zero_add, digitChar_toNat _ (by omega), digitChar_toNat _ (by omega)]
  omega

/-- Splitting a digit prefix from a dotted suffix. -/
theorem takeWhile_append_dot (l1 l2 : List Char)
    (h : ∀ c ∈ l1, (c != '.') = true) :
    ((l1 ++ '.' :: l2).takeWhile (fun c => c != '.') = l1) ∧
      ((l1 ++ '.' :: l2).dropWhile (fun c => c != '.') = '.' :: l2) := by
  induction l1 with
  | nil =>
    constructor <;> simp [List.takeWhile_cons, List.dropWhile_cons]
  | cons c rest ih =>
    have hc : (c != '.') = true := h c (List.mem_cons_self c rest)
    have hrest := ih fun x hx => h x (List.mem_cons_of_mem c hx)
    constructor
    · rw [List.cons_append, List.takeWhile_cons, hc]
      simp only [if_true, hrest.1]
    · rw [List.cons_append, List.dropWhile_cons, hc]
      simp only [if_true, hrest.2]

theorem parseUnsigned_digits (l : List Char) (h : ∀ c ∈ l, (c != '.') = true) :
    parseUnsigned l = (parseDigits l : ℚ) := by
  unfold parseUnsigned
  rw [List.takeWhile_eq_self_iff.2 (by simpa using h),
    List.dropWhile_eq_nil_iff.2 (by simpa using h)]
  simp [parseDigits]

theorem parseUnsigned_append_dot (l1 l2 : List Char)
    (h : ∀ c ∈ l1, (c != '.') = true) :
    parseUnsigned (l1 ++ '.' :: l2) =
      (parseDigits l1 : ℚ) + (parseDigits l2 : ℚ) / 10 ^ l2.length := by
  unfold parseUnsigned
  rw [(takeWhile_append_dot l1 l2 h).1, (takeWhile_append_dot l1 l2 h).2]
  rfl

theorem natToString_chars_ne_dot (n : ℕ) :
    ∀ c ∈ (natToString n).data, (c != '.') = true := by
  intro c hc
  obtain ⟨d, hd, rfl⟩ := natToString_chars n c hc
  exact digitChar_bne_dot d hd

theorem fixedChars_eq (n : ℕ) : fixedChars n =
    (natToString (n / 100)).data ++
      '.' :: [digitChar (n % 100 / 10), digitChar (n % 10)] := by
  unfold fixedChars twoDigitChars
  rw [Nat.mod_mod_of_dvd n (by norm_num : (10 : ℕ) ∣ 100)]

theorem parseDigits_pair (x y : ℕ) (hx : x < 10) (hy : y < 10) :
    parseDigits [digitChar x, digitChar y] = 10 * x + y := by
  unfold parseDigits
  simp only [List.foldl_cons, List.foldl_nil]
  rw [Nat.zero_mul, Nat.zero_add, digitChar_toNat _ hx, digitChar_toNat _ hy]
  ring

theorem parseDigits_single (x : ℕ) (hx : x < 10) :
    parseDigits [digitChar x] = x := by
  unfold parseDigits
  simp only [List.foldl_cons, List.foldl_nil]
  rw [Nat.zero_mul, Nat.zero_add, digitChar_toNat _ hx]

theorem parseUnsigned_fixedChars (n : ℕ) :
    parseUnsigned (fixedChars n) = (n : ℚ) / 100 := by
  rw [fixedChars_eq, parseUnsigned_append_dot _ _ (natToString_chars_ne_dot _),
    parseDigits_natToString, parseDigits_pair _ _ (by omega) (by omega)]
  have hsplit : n = 100 * (n / 100) + (10 * (n % 100 / 10) + n % 10) := by omega
  have hq : ((n : ℚ)) = 100 * ((n / 100 : ℕ) : ℚ) +
      ((10 * (n % 100 / 10) + n % 10 : ℕ) : ℚ) := by exact_mod_cast hsplit
  rw [hq]
  push_cast
  norm_num
  ring

/-- `stripTrailing` on a (possibly sign-prefixed) fixed-2 rendering. -/
theorem stripTrailing_fixed (pre : List Char) (n : ℕ) :
    stripTrailing (String.mk (pre ++ fixedChars n)) =
      String.mk (pre ++ strippedFixedChars n) := by
  have ha : n % 100 / 10 < 10 := by omega
  have hb : n % 10 < 10 := by omega
  have hrev : (pre ++ fixedChars n).reverse =
      digitChar (n % 10) :: digitChar (n % 100 / 10) :: '.' ::
        ((natToString (n / 100)).data.reverse ++ pre.reverse) := by
    rw [fixedChars_eq]
    simp
  unfold stripTrailing strippedFixedChars
  rw [stringMk_data, hrev]
  by_cases hb0 : n % 10 = 0
  · have hcb : digitChar (n % 10) = '0' := by rw [hb0]; rfl
    rw [hcb]
    simp only [List.head?_cons, if_true]
    by_cases hm0 : n % 100 = 0
    · have hca : digitChar (n % 100 / 10) = '0' := by rw [hm0]; rfl
      rw [hca, List.dropWhile_cons, List.dropWhile_cons, List.dropWhile_cons]
      simp only [show ('0' == '0') = true from rfl, show ('.' == '0') = false from rfl,
        if_true, Bool.false_eq_true, if_false, List.head?_cons]
      rw [if_pos hm0]
      simp
    · have hane : n % 100 / 10 ≠ 0 := by omega
      rw [List.dropWhile_cons, List.dropWhile_cons,
        digitChar_beq_zero _ ha, decide_eq_false hane]
      simp only [show ('0' == '0') = true from rfl, if_true, Bool.false_eq_true,
        if_false, List.head?_cons]
      rw [if_neg ?head, if_neg hm0, if_pos hb0]
      case head =>
        intro hcontr
        exact digitChar_ne_dot _ ha (Option.some_injective _ hcontr)
      simp
  · have hcbne : ¬(some (digitChar (n % 10)) = some '0') := by
      intro hcontr
      exact hb0 ((digitChar_eq_zero_iff _ hb).1 (Option.some_injective _ hcontr))
    simp only [List.head?_cons]
    rw [if_neg hcbne]
    have hm0 : n % 100 ≠ 0 := by omega
    rw [if_neg hm0, if_neg hb0]

theorem strippedFixedChars_ne_nil (n : ℕ) : strippedFixedChars n ≠ [] := by
  unfold strippedFixedChars
  split_ifs with h1 h2
  · exact natToString_ne_nil _
  · simp
  · rw [fixedChars_eq]
    simp

theorem strippedFixedChars_head_ne_dash (n : ℕ) :
    (strippedFixedChars n).head? ≠ some '-' := by
  have hgen : ∀ (l1 l2 : List Char), l1.head? ≠ some '-' → l1 ≠ [] →
      (l1 ++ l2).head? ≠ some '-' := by
    intro l1 l2 h hne
    cases l1 with
    | nil => exact absurd rfl hne
    | cons c rest => simpa using h
  unfold strippedFixedChars
  split_ifs with h1 h2
  · exact natToString_head_ne_dash _
  · exact hgen _ _ (natToString_head_ne_dash _) (natToString_ne_nil _)
  · rw [fixedChars_eq]
    exact hgen _ _ (natToString_head_ne_dash _) (natToString_ne_nil _)

theorem parseUnsigned_strippedFixedChars (n : ℕ) :
    parseUnsigned (strippedFixedChars n) = (n : ℚ) / 100 := by
  unfold strippedFixedChars
  split_ifs with h1 h2
  · rw [parseUnsigned_digits _ (natToString_chars_ne_dot _), parseDigits_natToString]
    have hsplit : n = 100 * (n / 100) := by omega
    have hq : ((n : ℚ)) = 100 * ((n / 100 : ℕ) : ℚ) := by exact_mod_cast hsplit
    rw [hq]
    ring
  · rw [show ((natToString (n / 100)).data ++ ['.', digitChar (n % 100 / 10)]) =
      (natToString (n / 100)).data ++ '.' :: [digitChar (n % 100 / 10)] from rfl]
    rw [parseUnsigned_append_dot _ _ (natToString_chars_ne_dot _),
      parseDigits_natToString, parseDigits_single _ (by omega)]
    have hsplit : n = 100 * (n / 100) + 10 * (n % 100 / 10) := by omega
    have hq : ((n : ℚ)) = 100 * ((n / 100 : ℕ) : ℚ) + 10 * ((n % 100 / 10 : ℕ) : ℚ) := by
      exact_mod_cast hsplit
    rw [hq]
    norm_num
    ring
  · exact parseUnsigned_fixedChars n

theorem parseNumber_of_ne_dash (s : String) (h : s.data.head? ≠ some '-') :
    parseNumber s = parseUnsigned s.data := by
  unfold parseNumber
  split
  · next rest heq =>
    exfalso
    apply h
    rw [heq]
    rfl
  · rfl

theorem parseNumber_mk_dash (l : List Char) :
    parseNumber (String.mk ('-' :: l)) = -parseUnsigned l := rfl

theorem parseNumber_intToString (i : ℤ) : parseNumber (intToString i) = (i : ℚ) := by
  unfold intToString
  split_ifs with h
  · rw [parseNumber_mk_dash, parseUnsigned_digits _ (natToString_chars_ne_dot _),
      parseDigits_natToString]
    have h4 : -((i.natAbs : ℕ) : ℤ) = i := by omega
    exact_mod_cast h4
  · rw [parseNumber_of_ne_dash _ (natToString_head_ne_dash _),
      parseUnsigned_digits _ (natToString_chars_ne_dot _), parseDigits_natToString]
    have h4 : i.natAbs = i.toNat := by omega
    rw [h4]
    exact_mod_cast Int.toNat_of_nonneg (not_lt.1 h)

theorem intToString_no_dot (i : ℤ) : '.' ∉ (intToString i).data := by
  have hnat : ∀ n : ℕ, '.' ∉ (natToString n).data := by
    intro n hmem
    obtain ⟨d, hd, hcd⟩ := natToString_chars n _ hmem
    exact digitChar_ne_dot d hd hcd.symm
  unfold intToString
  split_ifs with h
  · rw [stringMk_data]
    intro hmem
    rcases List.mem_cons.1 hmem with hdash | hrest
    · exact absurd hdash (by decide)
    · exact hnat _ hrest
  · exact hnat _

/-- Values within `1e-9` of an integer have that integer as their
fixed-2 value. -/
theorem toFixed2Val_near (v : ℚ) (r : ℤ) (h : |v - r| < 1 / 1000000000) :
    toFixed2Val v = (r : ℚ) := by
  obtain ⟨hlo, hhi⟩ := abs_lt.1 h
  have h1 : ⌊v * 100 + 1 / 2⌋ = 100 * r := by
    rw [Int.floor_eq_iff]
    constructor
    · push_cast
      linarith
    · push_cast
      linarith
  have h2 : ⌊(-v) * 100 + 1 / 2⌋ = -(100 * r) := by
    rw [Int.floor_eq_iff]
    constructor
    · push_cast
      linarith
    · push_cast
      linarith
  unfold toFixed2Val toFixed2Int
  split_ifs with hv
  · rw [h2]
    push_cast
    ring
  · rw [h1]
    push_cast
    ring

theorem jsRound_of_den_one (v : ℚ) (h : v.den = 1) : ((jsRound v : ℤ) : ℚ) = v := by
  have hv : ((v.num : ℚ)) = v := (Rat.den_eq_one_iff v).1 h
  unfold jsRound
  rw [← hv, Int.floor_int_add, show ⌊(1 : ℚ) / 2⌋ = 0 by norm_num]
  push_cast
  ring

/-- The stripped fixed-2 rendering parses back to `toFixed2Val`. -/
theorem parse_strip_toFixed2 (v : ℚ) :
    parseNumber (stripTrailing (toFixed2Str v)) = toFixed2Val v := by
  unfold toFixed2Str toFixed2PosChars
  split_ifs with hv
  · have hpos : (0 : ℚ) < -v * 100 + 1 / 2 := by linarith
    have hnn : (0 : ℤ) ≤ ⌊-v * 100 + 1 / 2⌋ := Int.floor_nonneg.2 (le_of_lt hpos)
    rw [show ('-' :: fixedChars (⌊-v * 100 + 1 / 2⌋).toNat : List Char) =
      ['-'] ++ fixedChars (⌊-v * 100 + 1 / 2⌋).toNat from rfl]
    rw [stripTrailing_fixed, show (['-'] ++ strippedFixedChars (⌊-v * 100 + 1 / 2⌋).toNat
        : List Char) = '-' :: strippedFixedChars (⌊-v * 100 + 1 / 2⌋).toNat from rfl,
      parseNumber_mk_dash, parseUnsigned_strippedFixedChars]
    unfold toFixed2Val toFixed2Int
    rw [if_pos hv]
    have hcast : (((⌊-v * 100 + 1 / 2⌋).toNat : ℕ) : ℚ) = ((⌊-v * 100 + 1 / 2⌋ : ℤ) : ℚ) := by
      exact_mod_cast Int.toNat_of_nonneg hnn
    rw [hcast]
    push_cast
    ring
  · have hpos : (0 : ℚ) ≤ v * 100 + 1 / 2 := by
      have : (0 : ℚ) ≤ v := not_lt.1 hv
      linarith
    have hnn : (0 : ℤ) ≤ ⌊v * 100 + 1 / 2⌋ := Int.floor_nonneg.2 hpos
    rw [show (fixedChars (⌊v * 100 + 1 / 2⌋).toNat : List Char) =
      [] ++ fixedChars (⌊v * 100 + 1 / 2⌋).toNat by rw [List.nil_append]]
    rw [stripTrailing_fixed, List.nil_append,
      parseNumber_of_ne_dash _ (by rw [stringMk_data]; exact strippedFixedChars_head_ne_dash _),
      stringMk_data, parseUnsigned_strippedFixedChars]
    unfold toFixed2Val toFixed2Int
    rw [if_neg hv]
    have hcast : (((⌊v * 100 + 1 / 2⌋).toNat : ℕ) : ℚ) = ((⌊v * 100 + 1 / 2⌋ : ℤ) : ℚ) := by
      exact_mod_cast Int.toNat_of_nonneg hnn
    rw [hcast]

theorem parseNumber_zero_str : parseNumber "0" = 0 := by
  have h1 : ("0" : String).data = ['0'] := rfl
  rw [parseNumber_of_ne_dash _ (by rw [h1]; decide), h1,
    parseUnsigned_digits _ (by decide)]
  norm_num
  rfl

/-- C7: `formatTickNum` returns `"0"` for `|v| < 1e-9`; the decimal string
of `round(v)` (no decimal point) when `v` is an integer or within `1e-9`
of one; otherwise `v` rendered to two decimals with trailing zeros and a
then-trailing decimal point stripped — and parsing the output recovers
`v` exactly for integers and the two-decimal rounding of `v` otherwise. -/
theorem c7_formatTickNum_spec (v : ℚ) :
    (|v| < 1 / 1000000000 → formatTickNum v = "0")
    ∧ (¬|v| < 1 / 1000000000 →
        (v.den = 1 ∨ |v - (jsRound v : ℚ)| < 1 / 1000000000) →
        formatTickNum v = intToString (jsRound v) ∧ '.' ∉ (formatTickNum v).data)
    ∧ (¬|v| < 1 / 1000000000 →
        ¬(v.den = 1 ∨ |v - (jsRound v : ℚ)| < 1 / 1000000000) →
        formatTickNum v = stripTrailing (toFixed2Str v))
    ∧ parseNumber (formatTickNum v) = toFixed2Val v
    ∧ (v.den = 1 → parseNumber (formatTickNum v) = v) := by
  have hmain : parseNumber (formatTickNum v) = toFixed2Val v := by
    unfold formatTickNum
    split_ifs with h1 h2
    · rw [parseNumber_zero_str, toFixed2Val_near v 0 (by simpa using h1)]
      norm_num
    · rw [parseNumber_intToString]
      rcases h2 with hden | hnear
      · have hv : ((v.num : ℚ)) = v := (Rat.den_eq_one_iff v).1 hden
        have hr : ((jsRound v : ℤ) : ℚ) = ((v.num : ℤ) : ℚ) := by
          rw [jsRound_of_den_one v hden, hv]
        rw [hr, toFixed2Val_near v v.num (by rw [hv, sub_self, abs_zero]; norm_num)]
      · rw [toFixed2Val_near v (jsRound v) hnear]
    · exact parse_strip_toFixed2 v
  have hint : v.den = 1 → toFixed2Val v = v := by
    intro hden
    have hv : ((v.num : ℚ)) = v := (Rat.den_eq_one_iff v).1 hden
    rw [toFixed2Val_near v v.num (by rw [hv, sub_self, abs_zero]; norm_num)]
    exact hv
  refine ⟨?_, ?_, ?_, hmain, fun hden => by rw [hmain, hint hden]⟩
  · intro h
    unfold formatTickNum
    rw [if_pos h]
  · intro h1 h2
    unfold formatTickNum
    rw [if_neg h1, if_pos h2]
    exact ⟨rfl, intToString_no_dot _⟩
  · intro h1 h2
    unfold formatTickNum
    rw [if_neg h1, if_neg h2]

/-- Witness for C7 at `v = 7/2`: rendered as `"3.5"`, parsing back to
`3.5`; and at the integer `v = 3`. -/
theorem c7_formatTickNum_spec_witness :
    parseNumber (formatTickNum (7 / 2)) = toFixed2Val (7 / 2)
    ∧ ((3 : ℚ).den = 1 ∧ parseNumber (formatTickNum 3) = 3) :=
  ⟨(c7_formatTickNum_spec (7 / 2)).2.2.2.1,
   ⟨rfl, (c7_formatTickNum_spec 3).2.2.2.2 rfl⟩⟩

/-! ### C4: step planning -/

/-- `qFloorLog10` satisfies the defining property of `⌊log10 x⌋`. -/
theorem qFloorLog10_bounds (x : ℚ) (hx : 0 < x) :
    (10 : ℚ) ^ qFloorLog10 x ≤ x ∧ x < (10 : ℚ) ^ (qFloorLog10 x + 1) := by
  unfold qFloorLog10
  split_ifs with h1
  · have hfl0 : (0 : ℤ) ≤ ⌊x⌋ := Int.floor_nonneg.2 (le_trans zero_le_one h1)
    have hfl1 : (1 : ℤ) ≤ ⌊x⌋ := by
      rw [Int.le_floor]
      exact_mod_cast h1
    have hnn : ⌊x⌋.toNat ≠ 0 := by omega
    have hfx : ((⌊x⌋.toNat : ℕ) : ℚ) = ((⌊x⌋ : ℤ) : ℚ) := by
      exact_mod_cast Int.toNat_of_nonneg hfl0
    constructor
    · rw [zpow_natCast]
      have hlog : (10 : ℕ) ^ Nat.log 10 ⌊x⌋.toNat ≤ ⌊x⌋.toNat :=
        Nat.pow_log_le_self 10 hnn
      have hcast : ((10 : ℚ)) ^ Nat.log 10 ⌊x⌋.toNat ≤ ((⌊x⌋.toNat : ℕ) : ℚ) := by
        exact_mod_cast hlog
      exact le_trans hcast (by rw [hfx]; exact Int.floor_le x)
    · have hlt : ⌊x⌋.toNat < 10 ^ (Nat.log 10 ⌊x⌋.toNat + 1) :=
        Nat.lt_pow_succ_log_self (by norm_num) _
    -- `x < ⌊x⌋ + 1 ≤ 10 ^ (log + 1)`
      have h2 : x < ((⌊x⌋ : ℤ) : ℚ) + 1 := Int.lt_floor_add_one x
      have h3 : ((⌊x⌋.toNat : ℕ) : ℚ) + 1 ≤ (10 : ℚ) ^ (Nat.log 10 ⌊x⌋.toNat + 1) := by
        have h5 : ((⌊x⌋.toNat : ℕ) : ℚ) + 1 ≤ ((10 ^ (Nat.log 10 ⌊x⌋.toNat + 1) : ℕ) : ℚ) := by
          exact_mod_cast hlt
        calc ((⌊x⌋.toNat : ℕ) : ℚ) + 1 ≤ ((10 ^ (Nat.log 10 ⌊x⌋.toNat + 1) : ℕ) : ℚ) := h5
          _ = (10 : ℚ) ^ (Nat.log 10 ⌊x⌋.toNat + 1) := by push_cast; ring
      have hz : ((Nat.log 10 ⌊x⌋.toNat : ℤ) + 1) = ((Nat.log 10 ⌊x⌋.toNat + 1 : ℕ) : ℤ) := by
        push_cast
        ring
      rw [hz, zpow_natCast]
      calc x < ((⌊x⌋ : ℤ) : ℚ) + 1 := h2
        _ = ((⌊x⌋.toNat : ℕ) : ℚ) + 1 := by rw [hfx]
        _ ≤ (10 : ℚ) ^ (Nat.log 10 ⌊x⌋.toNat + 1) := h3
  · have hxlt1 : x < 1 := not_le.1 h1
    have hinv : 1 < x⁻¹ := one_lt_inv_iff₀.2 ⟨hx, hxlt1⟩
    have hc0 : (0 : ℤ) ≤ ⌈x⁻¹⌉ := Int.ceil_nonneg (le_of_lt (lt_trans one_pos hinv))
    have hm2 : 2 ≤ ⌈x⁻¹⌉.toNat := by
      have : (1 : ℤ) < ⌈x⁻¹⌉ := Int.lt_ceil.2 (by exact_mod_cast hinv)
      omega
    have hmx : ((⌈x⁻¹⌉.toNat : ℕ) : ℚ) = ((⌈x⁻¹⌉ : ℤ) : ℚ) := by
      exact_mod_cast Int.toNat_of_nonneg hc0
    have hc1 : 1 ≤ Nat.clog 10 ⌈x⁻¹⌉.toNat := Nat.clog_pos (by norm_num) hm2
    have hxinvpos : 0 < x⁻¹ := lt_trans one_pos hinv
    constructor
    · -- `10 ^ (-clog) ≤ x` from `x⁻¹ ≤ ⌈x⁻¹⌉ ≤ 10 ^ clog`
      have hy : x⁻¹ ≤ (10 : ℚ) ^ Nat.clog 10 ⌈x⁻¹⌉.toNat := by
        have hle : ⌈x⁻¹⌉.toNat ≤ 10 ^ Nat.clog 10 ⌈x⁻¹⌉.toNat :=
          Nat.le_pow_clog (by norm_num) _
        have hle2 : ((⌈x⁻¹⌉.toNat : ℕ) : ℚ) ≤ (10 : ℚ) ^ Nat.clog 10 ⌈x⁻¹⌉.toNat := by
          exact_mod_cast hle
        exact le_trans (by rw [hmx]; exact Int.le_ceil x⁻¹) hle2
      rw [zpow_neg, zpow_natCast]
      calc ((10 : ℚ) ^ Nat.clog 10 ⌈x⁻¹⌉.toNat)⁻¹ ≤ (x⁻¹)⁻¹ := by
            exact inv_anti₀ hxinvpos hy
        _ = x := inv_inv x
    · -- `x < 10 ^ (-clog + 1)` from clog minimality
      have hmin : 10 ^ (Nat.clog 10 ⌈x⁻¹⌉.toNat - 1) < ⌈x⁻¹⌉.toNat := by
        by_contra hcon
        have hle := Nat.le_pow_iff_clog_le (by norm_num : (1:ℕ) < 10)
          |>.1 (not_lt.1 hcon)
        omega
      have hstrict : ((10 : ℚ)) ^ (Nat.clog 10 ⌈x⁻¹⌉.toNat - 1) < x⁻¹ := by
        have hle1 : 10 ^ (Nat.clog 10 ⌈x⁻¹⌉.toNat - 1) + 1 ≤ ⌈x⁻¹⌉.toNat := hmin
        have hle2 : ((10 ^ (Nat.clog 10 ⌈x⁻¹⌉.toNat - 1) : ℕ) : ℚ) + 1 ≤
            ((⌈x⁻¹⌉.toNat : ℕ) : ℚ) := by exact_mod_cast hle1
        have hceil : ((⌈x⁻¹⌉ : ℤ) : ℚ) < x⁻¹ + 1 := Int.ceil_lt_add_one x⁻¹
        have hpow : ((10 ^ (Nat.clog 10 ⌈x⁻¹⌉.toNat - 1) : ℕ) : ℚ) =
            (10 : ℚ) ^ (Nat.clog 10 ⌈x⁻¹⌉.toNat - 1) := by push_cast; ring
        rw [← hpow]
        rw [hmx] at hle2
        linarith
      have hz : (-(Nat.clog 10 ⌈x⁻¹⌉.toNat : ℤ) + 1) =
          -((Nat.clog 10 ⌈x⁻¹⌉.toNat - 1 : ℕ) : ℤ) := by
        have : ((Nat.clog 10 ⌈x⁻¹⌉.toNat - 1 : ℕ) : ℤ) =
            (Nat.clog 10 ⌈x⁻¹⌉.toNat : ℤ) - 1 := by
          omega
        rw [this]
        ring
      rw [hz, zpow_neg, zpow_natCast]
      have hppos : (0 : ℚ) < (10 : ℚ) ^ (Nat.clog 10 ⌈x⁻¹⌉.toNat - 1) := by positivity
      calc x = (x⁻¹)⁻¹ := (inv_inv x).symm
        _ < ((10 : ℚ) ^ (Nat.clog 10 ⌈x⁻¹⌉.toNat - 1))⁻¹ := by
            exact inv_strictAnti₀ hppos hstrict
        _ = ((10 : ℚ) ^ (Nat.clog 10 ⌈x⁻¹⌉.toNat - 1))⁻¹ := rfl

/-- Evaluation helper: `qFloorLog10 x = 0` on `[1, 10)`. -/
theorem qFloorLog10_eq_zero (x : ℚ) (h1 : 1 ≤ x) (h2 : x < 10) :
    qFloorLog10 x = 0 := by
  unfold qFloorLog10
  rw [if_pos h1]
  have hlt : ⌊x⌋ < 10 := Int.floor_lt.2 (by exact_mod_cast h2)
  have : Nat.log 10 ⌊x⌋.toNat = 0 :=
    Nat.log_eq_zero_iff.2 (Or.inl (by omega))
  rw [this]
  rfl

/-- The shape and division-count range of `niceStep` for a division
target in `[2, 10]`. -/
theorem niceStep_shape (L : ℚ) (d : ℤ) (hL : 0 < L) (hd : 2 ≤ d) (hd10 : d ≤ 10) :
    (∃ m : ℚ, ∃ k : ℤ, (m = 1 ∨ m = 2 ∨ m = 5) ∧ niceStep L d = m * 10 ^ k)
    ∧ 7 / 5 < L / niceStep L d ∧ L / niceStep L d ≤ 35 / 2 := by
  have hdne : ¬(d = 0) := by omega
  have hdq : (0 : ℚ) < (d : ℚ) := by exact_mod_cast lt_of_lt_of_le (by norm_num) hd
  have hdq2 : (2 : ℚ) ≤ (d : ℚ) := by exact_mod_cast hd
  have hdq10 : (d : ℚ) ≤ 10 := by exact_mod_cast hd10
  simp only [niceStep, if_neg hdne]
  have hpos : 0 < L / (d : ℚ) := div_pos hL hdq
  obtain ⟨hb1, hb2⟩ := qFloorLog10_bounds (L / (d : ℚ)) hpos
  have hmagpos : (0 : ℚ) < 10 ^ qFloorLog10 (L / (d : ℚ)) :=
    zpow_pos (by norm_num) _
  have hres1 : 1 ≤ L / (d : ℚ) / 10 ^ qFloorLog10 (L / (d : ℚ)) :=
    (one_le_div hmagpos).2 hb1
  have hres2 : L / (d : ℚ) / 10 ^ qFloorLog10 (L / (d : ℚ)) < 10 := by
    rw [div_lt_iff₀ hmagpos, mul_comm]
    have h10 : (10 : ℚ) ^ (qFloorLog10 (L / (d : ℚ)) + 1) =
        10 ^ qFloorLog10 (L / (d : ℚ)) * 10 :=
      zpow_add_one₀ (by norm_num : (10 : ℚ) ≠ 0) _
    rw [← h10]
    exact hb2
  set r := L / (d : ℚ) / 10 ^ qFloorLog10 (L / (d : ℚ)) with hr
  have hkey : ∀ nice : ℚ, nice ≠ 0 →
      L / (nice * 10 ^ qFloorLog10 (L / (d : ℚ))) = r * (d : ℚ) / nice := by
    intro nice hnice
    rw [hr]
    field_simp
    ring
  split_ifs with h1 h2 h3
  · refine ⟨⟨1, qFloorLog10 (L / (d : ℚ)), Or.inl rfl, rfl⟩, ?_, ?_⟩
    · rw [hkey 1 one_ne_zero]
      nlinarith
    · rw [hkey 1 one_ne_zero]
      nlinarith
  · refine ⟨⟨2, qFloorLog10 (L / (d : ℚ)), Or.inr (Or.inl rfl), rfl⟩, ?_, ?_⟩
    · rw [hkey 2 two_ne_zero]
      nlinarith [not_le.1 h1]
    · rw [hkey 2 two_ne_zero]
      nlinarith
  · refine ⟨⟨5, qFloorLog10 (L / (d : ℚ)), Or.inr (Or.inr rfl), rfl⟩, ?_, ?_⟩
    · rw [hkey 5 (by norm_num)]
      nlinarith [not_le.1 h2]
    · rw [hkey 5 (by norm_num)]
      nlinarith
  · refine ⟨⟨1, qFloorLog10 (L / (d : ℚ)) + 1, Or.inl rfl, ?_⟩, ?_, ?_⟩
    · rw [zpow_add_one₀ (by norm_num : (10 : ℚ) ≠ 0)]
      ring
    · rw [hkey 10 (by norm_num)]
      nlinarith [not_le.1 h3]
    · rw [hkey 10 (by norm_num)]
      nlinarith

/-- C4 amended: for all `L > 0` and label footprint `F > 0`, the planned
step is of the form `m * 10^k` with `m ∈ {1,2,5}`, and the division count
`L / step` lies in `(1.4, 17.5]` — not in `[2, 10]` as originally
claimed. -/
theorem c4_step_shape_and_range (L F : ℚ) (hL : 0 < L) (_hF : 0 < F) :
    (∃ m : ℚ, ∃ k : ℤ, (m = 1 ∨ m = 2 ∨ m = 5) ∧ (mkPlan L F).step = m * 10 ^ k)
    ∧ 7 / 5 < L / (mkPlan L F).step ∧ L / (mkPlan L F).step ≤ 35 / 2 := by
  have hstep : (mkPlan L F).step = niceStep L (min 10 (max 2 ⌊L / (F * (3 / 2))⌋)) := by
    simp only [mkPlan]
  rw [hstep]
  exact niceStep_shape L _ hL (le_min (by norm_num) (le_max_left _ _))
    (min_le_left _ _)

/-- C4 counterexample: at axis length `35` and footprint `2` the planned
step is `2`, and the division count `35 / 2 = 17.5` leaves `[2, 10]`. -/
theorem c4_counterexample :
    (mkPlan 35 2).step = 2
    ∧ ¬((2 : ℚ) ≤ 35 / (mkPlan 35 2).step ∧ 35 / (mkPlan 35 2).step ≤ 10) := by
  have hlog : qFloorLog10 (7 / 2) = 0 :=
    qFloorLog10_eq_zero _ (by norm_num) (by norm_num)
  have hfl : (⌊(35 : ℚ) / (2 * (3 / 2))⌋ : ℤ) = 11 := by norm_num
  have hstep : (mkPlan 35 2).step = 2 := by
    simp only [mkPlan, niceStep, hfl]
    norm_num [hlog]
  refine ⟨hstep, ?_⟩
  rw [hstep]
  norm_num

/-- Witness for C4 at `L = 10`, `F = 1`. -/
theorem c4_step_shape_and_range_witness :
    (0 : ℚ) < 10 ∧ (0 : ℚ) < 1
    ∧ ((∃ m : ℚ, ∃ k : ℤ, (m = 1 ∨ m = 2 ∨ m = 5) ∧ (mkPlan 10 1).step = m * 10 ^ k)
        ∧ 7 / 5 < 10 / (mkPlan 10 1).step ∧ 10 / (mkPlan 10 1).step ≤ 35 / 2) :=
  ⟨by norm_num, by norm_num,
    c4_step_shape_and_range 10 1 (by norm_num) (by norm_num)⟩

/-! ### C8 and C5: the graduated tick walk -/

/-- The planner's step is positive for a positive axis length. -/
theorem niceStep_pos (L : ℚ) (d : ℤ) (_hL : 0 < L) (hd : 2 ≤ d) :
    0 < niceStep L d := by
  have hdne : ¬(d = 0) := by omega
  simp only [niceStep, if_neg hdne]
  have hmag : (0 : ℚ) < 10 ^ qFloorLog10 (L / (d : ℚ)) := zpow_pos (by norm_num) _
  split_ifs <;> nlinarith

/-- Both tick-walk divisors are positive for a positive axis length. -/
theorem mkPlan_pos (length labelWidth : ℚ) (hL : 0 < length) :
    0 < (mkPlan length labelWidth).step ∧ 0 < (mkPlan length labelWidth).tickStep := by
  simp only [mkPlan]
  have hs : 0 < niceStep length (min 10 (max 2 ⌊length / (labelWidth * (3 / 2))⌋)) :=
    niceStep_pos length _ hL (le_min (by norm_num) (le_max_left _ _))
  refine ⟨hs, ?_⟩
  split_ifs
  · linarith
  · exact hs

/-- Every emitted mark of the tick walk lies outside the end-suppression
zone of width `step * 0.05`. -/
theorem tickWalk_marks_bounds (length : ℚ) (p : Plan) :
    ∀ e ∈ (tickWalk length p).marks,
      p.step * (5 / 100) ≤ e.1 ∧ e.1 ≤ length - p.step * (5 / 100) := by
  intro e he
  simp only [tickWalk] at he
  obtain ⟨i, _, hwe⟩ := List.mem_filterMap.1 he
  simp only [walkEntry] at hwe
  split_ifs at hwe with hneg hzone
  have heq := Option.some_injective _ hwe
  subst heq
  push_neg at hzone
  exact ⟨hzone.1, hzone.2⟩

/-- C8 amended: in the graduated tick walk, a tick is suppressed exactly
when its capped position `t = min(d, length)` lies within `step * 0.05`
(5% of one step, not 5% of the axis) of either end: every emitted mark
lies outside that zone, every walk position outside the zone is emitted,
and every walk position inside the zone produces no mark at all. -/
theorem c8_end_suppression (length sc : ℚ) (hlen : 1 / 10 ^ 10 ≤ length) :
    (∀ e ∈ (addGraduatedTicks length sc).marks,
        (tickPlan length sc).step * (5 / 100) ≤ e.1
          ∧ e.1 ≤ length - (tickPlan length sc).step * (5 / 100))
    ∧ (∀ i, i ≤ tickWalkN length (tickPlan length sc) →
        ¬(min ((i : ℚ) * (tickPlan length sc).tickStep) length <
              (tickPlan length sc).step * (5 / 100)
          ∨ length - (tickPlan length sc).step * (5 / 100) <
              min ((i : ℚ) * (tickPlan length sc).tickStep) length) →
        (min ((i : ℚ) * (tickPlan length sc).tickStep) length,
            isMajorAt (tickPlan length sc).step ((i : ℚ) * (tickPlan length sc).tickStep))
          ∈ (addGraduatedTicks length sc).marks)
    ∧ (∀ i, i ≤ tickWalkN length (tickPlan length sc) →
        (min ((i : ℚ) * (tickPlan length sc).tickStep) length <
              (tickPlan length sc).step * (5 / 100)
          ∨ length - (tickPlan length sc).step * (5 / 100) <
              min ((i : ℚ) * (tickPlan length sc).tickStep) length) →
        ∀ mj : Bool,
          (min ((i : ℚ) * (tickPlan length sc).tickStep) length, mj)
            ∉ (addGraduatedTicks length sc).marks) := by
  have hL : (0 : ℚ) < length := lt_of_lt_of_le (by norm_num) hlen
  have hnd : ¬(length < 1 / 10 ^ 10) := not_lt.2 hlen
  have hpos := mkPlan_pos length (sc * (35 / 100) * 3) hL
  have hadd : addGraduatedTicks length sc = tickWalk length (tickPlan length sc) := by
    simp only [addGraduatedTicks, if_neg hnd]
  rw [hadd]
  refine ⟨tickWalk_marks_bounds length _, ?_, ?_⟩
  · intro i hi hzone
    have hd0 : (0 : ℚ) ≤ (i : ℚ) * (tickPlan length sc).tickStep := by
      have := hpos.2
      simp only [tickPlan] at this
      positivity
    have hwe : walkEntry length (tickPlan length sc) i =
        some (min ((i : ℚ) * (tickPlan length sc).tickStep) length,
          isMajorAt (tickPlan length sc).step ((i : ℚ) * (tickPlan length sc).tickStep)) := by
      simp only [walkEntry]
      rw [if_neg (by intro hcon; nlinarith), if_neg hzone]
    simp only [tickWalk]
    exact List.mem_filterMap.2 ⟨i, List.mem_range.2 (by omega), hwe⟩
  · intro i hi hzone mj hmem
    have hout := tickWalk_marks_bounds length (tickPlan length sc) _ hmem
    simp only at hout
    rcases hzone with hz1 | hz2
    · exact absurd hout.1 (not_le.2 hz1)
    · exact absurd hout.2 (not_le.2 hz2)

/-- Shared evaluation: `niceStep 35 10 = 2`. -/
theorem niceStep_35_10 : niceStep (35 : ℚ) 10 = 2 := by
  have hlog : qFloorLog10 (7 / 2) = 0 :=
    qFloorLog10_eq_zero _ (by norm_num) (by norm_num)
  simp only [niceStep]
  norm_num [hlog]

/-- Shared evaluation: the plan of the C8 counterexample walk. -/
theorem tickPlan_35 : tickPlan 35 (2 / 5) = ⟨21 / 50, 10, 2, true, 1⟩ := by
  simp only [tickPlan, mkPlan]
  have hfl : (⌊(35 : ℚ) / (2 / 5 * (35 / 100) * 3 * (3 / 2))⌋ : ℤ) = 55 := by norm_num
  rw [hfl]
  norm_num [niceStep_35_10]

/-- C8 counterexample: on an axis of length `35` (plan step `2`,
half-step walk), the tick at `t = 1` is emitted as an unlabeled minor
mark even though it lies within 5% of the axis length (`1 < 1.75`) of
the start end. -/
theorem c8_counterexample :
    ((1 : ℚ), false) ∈ (addGraduatedTicks 35 (2 / 5)).marks
    ∧ (1 : ℚ) < 35 * (5 / 100) := by
  constructor
  · have hwe : walkEntry 35 ⟨21 / 50, 10, 2, true, 1⟩ 1 = some (1, false) := by
      have hmaj : isMajorAt 2 1 = false := by
        have hjr : jsRound ((1 : ℚ) / 2) = 1 := by
          unfold jsRound
          norm_num
        simp only [isMajorAt, hjr]
        norm_num
      simp only [walkEntry]
      rw [if_neg (by norm_num)]
      norm_num [hmaj]
    have hN : tickWalkN 35 ⟨21 / 50, 10, 2, true, 1⟩ = 35 := by
      simp only [tickWalkN]
      norm_num
      decide
    have hmem : ((1 : ℚ), false) ∈ (tickWalk 35 ⟨21 / 50, 10, 2, true, 1⟩).marks := by
      simp only [tickWalk]
      exact List.mem_filterMap.2 ⟨1, List.mem_range.2 (by rw [hN]; norm_num), hwe⟩
    simp only [addGraduatedTicks]
    rw [if_neg (by norm_num), tickPlan_35]
    exact hmem
  · norm_num

/-- Witness for C8 at `length = 10`, `spriteScale = 1`. -/
theorem c8_end_suppression_witness :
    (1 : ℚ) / 10 ^ 10 ≤ 10
    ∧ (∀ e ∈ (addGraduatedTicks 10 1).marks,
        (tickPlan 10 1).step * (5 / 100) ≤ e.1
          ∧ e.1 ≤ 10 - (tickPlan 10 1).step * (5 / 100)) :=
  ⟨by norm_num, (c8_end_suppression 10 1 (by norm_num)).1⟩

/-- C5 counterexample: for a bounding box of size `(0, 4, 2)` the X
axis is degenerate — its graduated ticks are empty — but the X dimension
label is still emitted, with text `"0.00"`; the claim that the dimension
label is omitted fails. -/
theorem c5_counterexample :
    (buildRuler ⟨0, 4, 2⟩).xTicks = ⟨[], []⟩
    ∧ (buildRuler ⟨0, 4, 2⟩).xDim = "0.00" := by
  constructor
  · simp only [buildRuler, addGraduatedTicks]
    rw [if_pos (by norm_num)]
  · simp only [buildRuler, toFixed2Str, toFixed2PosChars]
    rw [if_neg (by norm_num)]
    have h0 : (⌊(0 : ℚ) * 100 + 1 / 2⌋ : ℤ) = 0 := by norm_num
    rw [h0]
    decide

/-- C5 amended: a degenerate axis (`length < 1e-10`) emits no graduated
ticks and no tick labels; the degenerate guard returns before any
division, and on a non-degenerate axis the walk's divisors
(`labelWidth * 1.5`-scaled footprint aside, `step` and `tickStep`) are
strictly positive; but the axis's dimension label is still created —
text `"0.00"` for a zero-length axis. -/
theorem c5_degenerate_axis (size : Vec3Q) (hx : size.x < 1 / 10 ^ 10) :
    (buildRuler size).xTicks = ⟨[], []⟩
    ∧ (buildRuler size).xDim = toFixed2Str size.x
    ∧ (size.x = 0 → (buildRuler size).xDim = "0.00")
    ∧ (∀ length sc : ℚ, 1 / 10 ^ 10 ≤ length →
        0 < (tickPlan length sc).step ∧ 0 < (tickPlan length sc).tickStep) := by
  refine ⟨?_, rfl, ?_, ?_⟩
  · simp only [buildRuler, addGraduatedTicks]
    rw [if_pos hx]
  · intro h0
    simp only [buildRuler, toFixed2Str, toFixed2PosChars, h0]
    rw [if_neg (by norm_num)]
    have hfl : (⌊(0 : ℚ) * 100 + 1 / 2⌋ : ℤ) = 0 := by norm_num
    rw [hfl]
    decide
  · intro length sc hlen
    exact mkPlan_pos length _ (lt_of_lt_of_le (by norm_num) hlen)

/-- Witness for C5 at the box `(0, 4, 2)`. -/
theorem c5_degenerate_axis_witness :
    ((⟨0, 4, 2⟩ : Vec3Q).x < 1 / 10 ^ 10)
    ∧ (buildRuler ⟨0, 4, 2⟩).xDim = toFixed2Str (0 : ℚ) :=
  ⟨by norm_num, (c5_degenerate_axis ⟨0, 4, 2⟩ (by norm_num)).2.1⟩

/-! ### C9, C3, C1, C6: camera transitions -/

@[simp] theorem Vec3.add_x (a b : Vec3) : (a + b).x = a.x + b.x := rfl

@[simp] theorem Vec3.add_y (a b : Vec3) : (a + b).y = a.y + b.y := rfl

@[simp] theorem Vec3.add_z (a b : Vec3) : (a + b).z = a.z + b.z := rfl

@[simp] theorem Vec3.sub_x (a b : Vec3) : (a - b).x = a.x - b.x := rfl

@[simp] theorem Vec3.sub_y (a b : Vec3) : (a - b).y = a.y - b.y := rfl

@[simp] theorem Vec3.sub_z (a b : Vec3) : (a - b).z = a.z - b.z := rfl

@[simp] theorem Vec3.smul_x (r : ℝ) (a : Vec3) : (r • a).x = r * a.x := rfl

@[simp] theorem Vec3.smul_y (r : ℝ) (a : Vec3) : (r • a).y = r * a.y := rfl

@[simp] theorem Vec3.smul_z (r : ℝ) (a : Vec3) : (r • a).z = r * a.z := rfl

/-- The re-projected eye is at distance `|dist|` from the center whenever
the interpolated eye does not coincide with the center. -/
theorem animEye_dist (s : Session) (raw : ℝ) (h : 0 < curDist s raw) :
    norm3 (animEye s raw - s.center) = |s.dist| := by
  have hsum : (0 : ℝ) ≤ ((lerpEye s raw).x - s.center.x) ^ 2 +
      ((lerpEye s raw).y - s.center.y) ^ 2 + ((lerpEye s raw).z - s.center.z) ^ 2 := by
    positivity
  have hcd2 : curDist s raw ^ 2 = ((lerpEye s raw).x - s.center.x) ^ 2 +
      ((lerpEye s raw).y - s.center.y) ^ 2 + ((lerpEye s raw).z - s.center.z) ^ 2 := by
    unfold curDist norm3
    simp only [Vec3.sub_x, Vec3.sub_y, Vec3.sub_z]
    rw [Real.sq_sqrt hsum]
  have hne : curDist s raw ≠ 0 := ne_of_gt h
  unfold animEye
  rw [if_pos h]
  unfold norm3
  simp only [Vec3.sub_x, Vec3.sub_y, Vec3.sub_z]
  have hgoal : (s.center.x + ((lerpEye s raw).x - s.center.x) / curDist s raw * s.dist
        - s.center.x) ^ 2 +
      (s.center.y + ((lerpEye s raw).y - s.center.y) / curDist s raw * s.dist
        - s.center.y) ^ 2 +
      (s.center.z + ((lerpEye s raw).z - s.center.z) / curDist s raw * s.dist
        - s.center.z) ^ 2 = s.dist ^ 2 := by
    field_simp
    rw [hcd2]
    ring
  rw [hgoal, Real.sqrt_sq_eq_abs]

/-- The re-normalized up vector is unit length whenever the interpolated
up vector is nonzero. -/
theorem animUp_norm (s : Session) (raw : ℝ) (h : 0 < upLen s raw) :
    norm3 (animUp s raw) = 1 := by
  have hsum : (0 : ℝ) ≤ (lerpUp s raw).x ^ 2 + (lerpUp s raw).y ^ 2 +
      (lerpUp s raw).z ^ 2 := by positivity
  have hul2 : upLen s raw ^ 2 = (lerpUp s raw).x ^ 2 + (lerpUp s raw).y ^ 2 +
      (lerpUp s raw).z ^ 2 := by
    unfold upLen norm3
    rw [Real.sq_sqrt hsum]
  have hne : upLen s raw ≠ 0 := ne_of_gt h
  unfold animUp
  rw [if_pos h]
  show Real.sqrt (((lerpUp s raw).x / upLen s raw) ^ 2 +
      ((lerpUp s raw).y / upLen s raw) ^ 2 + ((lerpUp s raw).z / upLen s raw) ^ 2) = 1
  have hgoal : ((lerpUp s raw).x / upLen s raw) ^ 2 + ((lerpUp s raw).y / upLen s raw) ^ 2 +
      ((lerpUp s raw).z / upLen s raw) ^ 2 = 1 := by
    field_simp
    rw [hul2]
  rw [hgoal, Real.sqrt_one]

/-- The session's captured distance is nonnegative. -/
theorem mkSession_dist_nonneg (center eye up dirVec upVec : Vec3) (dir : String)
    (hr : Bool) : 0 ≤ (mkSession center eye up dirVec upVec dir hr).dist := by
  simp only [mkSession]
  exact Real.sqrt_nonneg _

/-- C3 amended: for any transition session and any progress `raw`, the
written eye lies at exactly the captured distance from the center
whenever the linearly interpolated eye does not coincide with the center
(`curDist > 0`), and the written up vector is unit length whenever the
linearly interpolated up vector is nonzero (`uLen > 0`); in the excluded
cases the source skips re-projection/renormalization. -/
theorem c3_orbit_invariant (center eye up dirVec upVec : Vec3) (dir : String)
    (hr : Bool) (raw : ℝ) :
    (0 < curDist (mkSession center eye up dirVec upVec dir hr) raw →
      norm3 (animEye (mkSession center eye up dirVec upVec dir hr) raw - center) =
        (mkSession center eye up dirVec upVec dir hr).dist)
    ∧ (0 < upLen (mkSession center eye up dirVec upVec dir hr) raw →
      norm3 (animUp (mkSession center eye up dirVec upVec dir hr) raw) = 1) := by
  constructor
  · intro h
    have hd := animEye_dist (mkSession center eye up dirVec upVec dir hr) raw h
    have hc : (mkSession center eye up dirVec upVec dir hr).center = center := rfl
    rw [hc] at hd
    rw [hd, abs_of_nonneg (mkSession_dist_nonneg center eye up dirVec upVec dir hr)]
  · exact animUp_norm _ raw

/-- Witness for C3 at the `top` session from the front eye at `raw = 0`. -/
theorem c3_orbit_invariant_witness :
    (0 < curDist (mkSession ⟨0, 0, 0⟩ ⟨0, 0, 1⟩ ⟨0, 1, 0⟩ ⟨0, 1, 0⟩ ⟨0, 0, -1⟩ "top" false) 0)
    ∧ norm3 (animEye (mkSession ⟨0, 0, 0⟩ ⟨0, 0, 1⟩ ⟨0, 1, 0⟩ ⟨0, 1, 0⟩ ⟨0, 0, -1⟩
          "top" false) 0 - ⟨0, 0, 0⟩) =
        (mkSession ⟨0, 0, 0⟩ ⟨0, 0, 1⟩ ⟨0, 1, 0⟩ ⟨0, 1, 0⟩ ⟨0, 0, -1⟩ "top" false).dist := by
  have hlerp : lerpEye (mkSession ⟨0, 0, 0⟩ ⟨0, 0, 1⟩ ⟨0, 1, 0⟩ ⟨0, 1, 0⟩ ⟨0, 0, -1⟩
      "top" false) 0 = ⟨0, 0, 1⟩ := by
    simp only [lerpEye, easeOutCubic, mkSession]
    ext <;> norm_num
  have hcd : curDist (mkSession ⟨0, 0, 0⟩ ⟨0, 0, 1⟩ ⟨0, 1, 0⟩ ⟨0, 1, 0⟩ ⟨0, 0, -1⟩
      "top" false) 0 = 1 := by
    unfold curDist
    rw [hlerp]
    show Real.sqrt (((⟨0, 0, 1⟩ : Vec3) - ⟨0, 0, 0⟩).x ^ 2 +
      ((⟨0, 0, 1⟩ : Vec3) - ⟨0, 0, 0⟩).y ^ 2 + ((⟨0, 0, 1⟩ : Vec3) - ⟨0, 0, 0⟩).z ^ 2) = 1
    simp only [Vec3.sub_x, Vec3.sub_y, Vec3.sub_z]
    norm_num
  have hpos : 0 < curDist (mkSession ⟨0, 0, 0⟩ ⟨0, 0, 1⟩ ⟨0, 1, 0⟩ ⟨0, 1, 0⟩ ⟨0, 0, -1⟩
      "top" false) 0 := by
    rw [hcd]
    norm_num
  exact ⟨hpos, (c3_orbit_invariant ⟨0, 0, 0⟩ ⟨0, 0, 1⟩ ⟨0, 1, 0⟩ ⟨0, 1, 0⟩ ⟨0, 0, -1⟩
    "top" false 0).1 hpos⟩

/-- C3 counterexample: a `back` transition from the antipodal front eye.
At the progress value `raw₀ = 1 - (1/2)^(1/3)` (which lies in `[0, 1]`)
the eased interpolation parameter is exactly `1/2`, the linearly
interpolated eye coincides with the center, the source skips the sphere
re-projection, and the written eye sits at distance `0 ≠ 1` from the
center — refuting the claim that every frame keeps `|eye - center|`
equal to the captured distance. -/
theorem c3_counterexample :
    (0 ≤ 1 - (1 / 2 : ℝ) ^ ((3 : ℝ)⁻¹) ∧ 1 - (1 / 2 : ℝ) ^ ((3 : ℝ)⁻¹) ≤ 1)
    ∧ dirTable "back" = some (⟨0, 0, -1⟩, ⟨0, 1, 0⟩)
    ∧ (mkSession ⟨0, 0, 0⟩ ⟨0, 0, 1⟩ ⟨0, 1, 0⟩ ⟨0, 0, -1⟩ ⟨0, 1, 0⟩ "back" false).dist = 1
    ∧ norm3 (animEye (mkSession ⟨0, 0, 0⟩ ⟨0, 0, 1⟩ ⟨0, 1, 0⟩ ⟨0, 0, -1⟩ ⟨0, 1, 0⟩
          "back" false) (1 - (1 / 2 : ℝ) ^ ((3 : ℝ)⁻¹)) -
        (mkSession ⟨0, 0, 0⟩ ⟨0, 0, 1⟩ ⟨0, 1, 0⟩ ⟨0, 0, -1⟩ ⟨0, 1, 0⟩ "back" false).center)
      ≠ (mkSession ⟨0, 0, 0⟩ ⟨0, 0, 1⟩ ⟨0, 1, 0⟩ ⟨0, 0, -1⟩ ⟨0, 1, 0⟩ "back" false).dist := by
  have h0 : (0 : ℝ) ≤ 1 / 2 := by norm_num
  have hcube : ((1 / 2 : ℝ) ^ ((3 : ℝ)⁻¹)) ^ (3 : ℕ) = 1 / 2 := by
    rw [← Real.rpow_natCast ((1 / 2 : ℝ) ^ ((3 : ℝ)⁻¹)) 3, ← Real.rpow_mul h0]
    norm_num
  have hle1 : (1 / 2 : ℝ) ^ ((3 : ℝ)⁻¹) ≤ 1 :=
    Real.rpow_le_one h0 (by norm_num) (by norm_num)
  have hge0 : (0 : ℝ) ≤ (1 / 2 : ℝ) ^ ((3 : ℝ)⁻¹) := Real.rpow_nonneg h0 _
  have heo : easeOutCubic (1 - (1 / 2 : ℝ) ^ ((3 : ℝ)⁻¹)) = 1 / 2 := by
    unfold easeOutCubic
    rw [show (1 : ℝ) - (1 - (1 / 2 : ℝ) ^ ((3 : ℝ)⁻¹)) = (1 / 2 : ℝ) ^ ((3 : ℝ)⁻¹) by
      ring, hcube]
    norm_num
  have hdist : (mkSession ⟨0, 0, 0⟩ ⟨0, 0, 1⟩ ⟨0, 1, 0⟩ ⟨0, 0, -1⟩ ⟨0, 1, 0⟩
      "back" false).dist = 1 := by
    simp only [mkSession]
    norm_num
  have hlerp : lerpEye (mkSession ⟨0, 0, 0⟩ ⟨0, 0, 1⟩ ⟨0, 1, 0⟩ ⟨0, 0, -1⟩ ⟨0, 1, 0⟩
      "back" false) (1 - (1 / 2 : ℝ) ^ ((3 : ℝ)⁻¹)) = ⟨0, 0, 0⟩ := by
    simp only [lerpEye, mkSession, heo]
    ext <;> norm_num
  have hcd : curDist (mkSession ⟨0, 0, 0⟩ ⟨0, 0, 1⟩ ⟨0, 1, 0⟩ ⟨0, 0, -1⟩ ⟨0, 1, 0⟩
      "back" false) (1 - (1 / 2 : ℝ) ^ ((3 : ℝ)⁻¹)) = 0 := by
    unfold curDist
    rw [hlerp]
    show Real.sqrt (((⟨0, 0, 0⟩ : Vec3) - ⟨0, 0, 0⟩).x ^ 2 +
      ((⟨0, 0, 0⟩ : Vec3) - ⟨0, 0, 0⟩).y ^ 2 + ((⟨0, 0, 0⟩ : Vec3) - ⟨0, 0, 0⟩).z ^ 2) = 0
    simp only [Vec3.sub_x, Vec3.sub_y, Vec3.sub_z]
    norm_num
  have heye : animEye (mkSession ⟨0, 0, 0⟩ ⟨0, 0, 1⟩ ⟨0, 1, 0⟩ ⟨0, 0, -1⟩ ⟨0, 1, 0⟩
      "back" false) (1 - (1 / 2 : ℝ) ^ ((3 : ℝ)⁻¹)) = ⟨0, 0, 0⟩ := by
    unfold animEye
    rw [if_neg (by rw [hcd]; exact lt_irrefl 0), hlerp]
  refine ⟨⟨by linarith, by linarith⟩, rfl, hdist, ?_⟩
  rw [heye, hdist]
  show Real.sqrt (((⟨0, 0, 0⟩ : Vec3) - ⟨0, 0, 0⟩).x ^ 2 +
    ((⟨0, 0, 0⟩ : Vec3) - ⟨0, 0, 0⟩).y ^ 2 + ((⟨0, 0, 0⟩ : Vec3) - ⟨0, 0, 0⟩).z ^ 2) ≠ 1
  simp only [Vec3.sub_x, Vec3.sub_y, Vec3.sub_z]
  norm_num

/-- At `raw = 1` the interpolated eye equals the target eye. -/
theorem lerpEye_one (s : Session) : lerpEye s 1 = s.targetEye := by
  simp only [lerpEye, easeOutCubic]
  ext <;> norm_num

/-- At `raw = 1` the interpolated up vector equals the target up. -/
theorem lerpUp_one (s : Session) : lerpUp s 1 = s.upVec := by
  simp only [lerpUp, easeOutCubic]
  ext <;> norm_num

/-- A completed transition lands the eye exactly on
`center + dist • dirVec` when the direction vector is unit length. -/
theorem animEye_complete (center eye up dirVec upVec : Vec3) (dir : String) (hr : Bool)
    (hdv : dirVec.x ^ 2 + dirVec.y ^ 2 + dirVec.z ^ 2 = 1) :
    animEye (mkSession center eye up dirVec upVec dir hr) 1 =
      center + (mkSession center eye up dirVec upVec dir hr).dist • dirVec := by
  set D := (mkSession center eye up dirVec upVec dir hr).dist with hD
  have hD0 : 0 ≤ D := mkSession_dist_nonneg center eye up dirVec upVec dir hr
  have htarget : (mkSession center eye up dirVec upVec dir hr).targetEye =
      ⟨center.x + dirVec.x * D, center.y + dirVec.y * D, center.z + dirVec.z * D⟩ := rfl
  have hcenter : (mkSession center eye up dirVec upVec dir hr).center = center := rfl
  have hlerp : lerpEye (mkSession center eye up dirVec upVec dir hr) 1 =
      ⟨center.x + dirVec.x * D, center.y + dirVec.y * D, center.z + dirVec.z * D⟩ := by
    rw [lerpEye_one, htarget]
  have hcd : curDist (mkSession center eye up dirVec upVec dir hr) 1 = D := by
    unfold curDist
    rw [hlerp, hcenter]
    show Real.sqrt ((center.x + dirVec.x * D - center.x) ^ 2 +
      (center.y + dirVec.y * D - center.y) ^ 2 + (center.z + dirVec.z * D - center.z) ^ 2) = D
    have harg : (center.x + dirVec.x * D - center.x) ^ 2 +
        (center.y + dirVec.y * D - center.y) ^ 2 +
        (center.z + dirVec.z * D - center.z) ^ 2 = D ^ 2 := by
      nlinarith [hdv]
    rw [harg, Real.sqrt_sq hD0]
  rcases eq_or_lt_of_le hD0 with hD0eq | hDpos
  · have hcd0 : ¬(0 < curDist (mkSession center eye up dirVec upVec dir hr) 1) := by
      rw [hcd, ← hD0eq]
      exact lt_irrefl 0
    unfold animEye
    rw [if_neg hcd0, hlerp]
    ext <;> simp [← hD0eq]
  · have hcdpos : 0 < curDist (mkSession center eye up dirVec upVec dir hr) 1 := by
      rw [hcd]
      exact hDpos
    have hne : D ≠ 0 := ne_of_gt hDpos
    unfold animEye
    rw [if_pos hcdpos]
    rw [hlerp, hcd, hcenter]
    ext <;> simp only [Vec3.add_x, Vec3.add_y, Vec3.add_z, Vec3.smul_x, Vec3.smul_y,
      Vec3.smul_z] <;> field_simp <;> ring

/-- A completed transition lands the up vector exactly on the target up
when the target up is unit length. -/
theorem animUp_complete (center eye up dirVec upVec : Vec3) (dir : String) (hr : Bool)
    (huv : upVec.x ^ 2 + upVec.y ^ 2 + upVec.z ^ 2 = 1) :
    animUp (mkSession center eye up dirVec upVec dir hr) 1 = upVec := by
  have hul : upLen (mkSession center eye up dirVec upVec dir hr) 1 = 1 := by
    unfold upLen
    rw [lerpUp_one]
    show Real.sqrt ((mkSession center eye up dirVec upVec dir hr).upVec.x ^ 2 +
      (mkSession center eye up dirVec upVec dir hr).upVec.y ^ 2 +
      (mkSession center eye up dirVec upVec dir hr).upVec.z ^ 2) = 1
    have hup : (mkSession center eye up dirVec upVec dir hr).upVec = upVec := rfl
    rw [hup, huv, Real.sqrt_one]
  have hpos : 0 < upLen (mkSession center eye up dirVec upVec dir hr) 1 := by
    rw [hul]
    norm_num
  unfold animUp
  rw [if_pos hpos, hul, lerpUp_one]
  have hup : (mkSession center eye up dirVec upVec dir hr).upVec = upVec := rfl
  rw [hup]
  ext <;> norm_num

/-- C9: whenever the direction token is valid, the completing frame
(`raw = 1`) of `setCameraDirection` writes exactly
`eye = center + dist • dirVec` and `up = upVec`, with `dirVec`/`upVec`
taken from the source's direction table
(`front = +Z`, `back = -Z`, `left = -X`, `right = +X`,
`top = +Y` with up `-Z`, `bottom = -Y` with up `+Z`, others up `+Y`). -/
theorem c9_direction_completion (center eye up : Vec3) (d : String) (dv uv : Vec3)
    (h : dirTable d = some (dv, uv)) (hr : Bool) :
    animEye (mkSession center eye up dv uv d hr) 1 =
      center + (mkSession center eye up dv uv d hr).dist • dv
    ∧ animUp (mkSession center eye up dv uv d hr) 1 = uv := by
  have hunit : (dv.x ^ 2 + dv.y ^ 2 + dv.z ^ 2 = 1) ∧ (uv.x ^ 2 + uv.y ^ 2 + uv.z ^ 2 = 1) := by
    unfold dirTable at h
    split_ifs at h <;>
      · simp only [Option.some_inj, Prod.mk.injEq] at h
        obtain ⟨h1, h2⟩ := h
        subst h1
        subst h2
        norm_num
  exact ⟨animEye_complete center eye up dv uv d hr hunit.1,
    animUp_complete center eye up dv uv d hr hunit.2⟩

/-- Witness for C9: completing a `top` transition from the front eye at
distance 1 lands on `center + (0, 1, 0)` with up `(0, 0, -1)`. -/
theorem c9_direction_completion_witness :
    dirTable "top" = some (⟨0, 1, 0⟩, ⟨0, 0, -1⟩)
    ∧ animEye (mkSession ⟨0, 0, 0⟩ ⟨0, 0, 1⟩ ⟨0, 1, 0⟩ ⟨0, 1, 0⟩ ⟨0, 0, -1⟩ "top" false) 1 =
        (⟨0, 0, 0⟩ : Vec3) +
          (mkSession ⟨0, 0, 0⟩ ⟨0, 0, 1⟩ ⟨0, 1, 0⟩ ⟨0, 1, 0⟩ ⟨0, 0, -1⟩ "top" false).dist •
            (⟨0, 1, 0⟩ : Vec3)
    ∧ animUp (mkSession ⟨0, 0, 0⟩ ⟨0, 0, 1⟩ ⟨0, 1, 0⟩ ⟨0, 1, 0⟩ ⟨0, 0, -1⟩ "top" false) 1 =
        ⟨0, 0, -1⟩ :=
  ⟨rfl,
   (c9_direction_completion ⟨0, 0, 0⟩ ⟨0, 0, 1⟩ ⟨0, 1, 0⟩ "top" ⟨0, 1, 0⟩ ⟨0, 0, -1⟩
      rfl false).1,
   (c9_direction_completion ⟨0, 0, 0⟩ ⟨0, 0, 1⟩ ⟨0, 1, 0⟩ "top" ⟨0, 1, 0⟩ ⟨0, 0, -1⟩
      rfl false).2⟩

/-- Evaluation of two back-to-back `setCameraDirection` calls: the second
call does not cancel the first session — both remain in flight. -/
theorem twoStartWorld_eval :
    setCameraDirectionW (setCameraDirectionW
        ⟨true, ⟨0, 0, 0⟩, ⟨0, 0, 1⟩, ⟨0, 1, 0⟩, "front", false, []⟩ "left") "top" =
      ⟨true, ⟨0, 0, 0⟩, ⟨0, 0, 1⟩, ⟨0, 1, 0⟩, "front", false,
        [mkSession ⟨0, 0, 0⟩ ⟨0, 0, 1⟩ ⟨0, 1, 0⟩ ⟨-1, 0, 0⟩ ⟨0, 1, 0⟩ "left" false,
         mkSession ⟨0, 0, 0⟩ ⟨0, 0, 1⟩ ⟨0, 1, 0⟩ ⟨0, 1, 0⟩ ⟨0, 0, -1⟩ "top" false]⟩ := rfl

/-- C1 counterexample: after a second `setCameraDirection` supersedes the
first, both session closures remain scheduled, and a frame delivered to
the superseded `left` session still overwrites the shared camera eye —
it is not a no-op. -/
theorem c1_counterexample :
    ((setCameraDirectionW (setCameraDirectionW
        ⟨true, ⟨0, 0, 0⟩, ⟨0, 0, 1⟩, ⟨0, 1, 0⟩, "front", false, []⟩ "left")
        "top").sessions.length = 2)
    ∧ (frameW (setCameraDirectionW (setCameraDirectionW
        ⟨true, ⟨0, 0, 0⟩, ⟨0, 0, 1⟩, ⟨0, 1, 0⟩, "front", false, []⟩ "left") "top") 0 1).eye
      ≠ (setCameraDirectionW (setCameraDirectionW
        ⟨true, ⟨0, 0, 0⟩, ⟨0, 0, 1⟩, ⟨0, 1, 0⟩, "front", false, []⟩ "left") "top").eye := by
  have hdist : (mkSession ⟨0, 0, 0⟩ ⟨0, 0, 1⟩ ⟨0, 1, 0⟩ ⟨-1, 0, 0⟩ ⟨0, 1, 0⟩
      "left" false).dist = 1 := by
    simp only [mkSession]
    norm_num
  have hcomp := animEye_complete ⟨0, 0, 0⟩ ⟨0, 0, 1⟩ ⟨0, 1, 0⟩ ⟨-1, 0, 0⟩ ⟨0, 1, 0⟩
    "left" false (by norm_num)
  rw [twoStartWorld_eval]
  refine ⟨rfl, ?_⟩
  have heye : (frameW ⟨true, ⟨0, 0, 0⟩, ⟨0, 0, 1⟩, ⟨0, 1, 0⟩, "front", false,
      [mkSession ⟨0, 0, 0⟩ ⟨0, 0, 1⟩ ⟨0, 1, 0⟩ ⟨-1, 0, 0⟩ ⟨0, 1, 0⟩ "left" false,
       mkSession ⟨0, 0, 0⟩ ⟨0, 0, 1⟩ ⟨0, 1, 0⟩ ⟨0, 1, 0⟩ ⟨0, 0, -1⟩ "top" false]⟩ 0 1).eye =
      animEye (mkSession ⟨0, 0, 0⟩ ⟨0, 0, 1⟩ ⟨0, 1, 0⟩ ⟨-1, 0, 0⟩ ⟨0, 1, 0⟩
        "left" false) 1 := rfl
  rw [heye, hcomp, hdist]
  intro hcontr
  have hx := congrArg Vec3.x hcontr
  simp only [Vec3.add_x, Vec3.smul_x] at hx
  norm_num at hx

/-- C1 amended: a frame callback performs no session-ownership check —
delivered to any in-flight session, superseded or not, it writes the
shared camera from that session's own parameters, so a stale session's
frame whose computed eye differs from the current one mutates the
camera instead of becoming a no-op. -/
theorem c1_stale_frames_mutate (w : World) (i : ℕ) (s : Session) (raw : ℝ)
    (hs : w.sessions[i]? = some s) (_hsup : i + 1 < w.sessions.length) :
    (frameW w i raw).eye = animEye s raw
    ∧ (frameW w i raw).up = animUp s raw
    ∧ (animEye s raw ≠ w.eye → (frameW w i raw).eye ≠ w.eye) := by
  unfold frameW
  rw [hs]
  exact ⟨rfl, rfl, fun hne => hne⟩

/-- Witness for C1: the superseded `left` session of the two-start world
still drives the camera on its completing frame. -/
theorem c1_stale_frames_mutate_witness :
    ((setCameraDirectionW (setCameraDirectionW
        ⟨true, ⟨0, 0, 0⟩, ⟨0, 0, 1⟩, ⟨0, 1, 0⟩, "front", false, []⟩ "left")
        "top").sessions[0]? =
      some (mkSession ⟨0, 0, 0⟩ ⟨0, 0, 1⟩ ⟨0, 1, 0⟩ ⟨-1, 0, 0⟩ ⟨0, 1, 0⟩ "left" false))
    ∧ (0 + 1 < (setCameraDirectionW (setCameraDirectionW
        ⟨true, ⟨0, 0, 0⟩, ⟨0, 0, 1⟩, ⟨0, 1, 0⟩, "front", false, []⟩ "left")
        "top").sessions.length)
    ∧ (frameW (setCameraDirectionW (setCameraDirectionW
        ⟨true, ⟨0, 0, 0⟩, ⟨0, 0, 1⟩, ⟨0, 1, 0⟩, "front", false, []⟩ "left") "top") 0 1).eye =
      animEye (mkSession ⟨0, 0, 0⟩ ⟨0, 0, 1⟩ ⟨0, 1, 0⟩ ⟨-1, 0, 0⟩ ⟨0, 1, 0⟩
        "left" false) 1 :=
  ⟨rfl, by rw [twoStartWorld_eval]; norm_num,
   (c1_stale_frames_mutate
      (setCameraDirectionW (setCameraDirectionW
        ⟨true, ⟨0, 0, 0⟩, ⟨0, 0, 1⟩, ⟨0, 1, 0⟩, "front", false, []⟩ "left") "top") 0
      (mkSession ⟨0, 0, 0⟩ ⟨0, 0, 1⟩ ⟨0, 1, 0⟩ ⟨-1, 0, 0⟩ ⟨0, 1, 0⟩ "left" false) 1
      rfl (by rw [twoStartWorld_eval]; norm_num)).1⟩

/-- C6 counterexample: with no object loaded (`loaded = false`),
`setCameraDirection('front')` still animates: the completing frame moves
the camera eye — the operation is not a no-op on the camera state. -/
theorem c6_counterexample :
    (⟨false, ⟨0, 0, 0⟩, ⟨3, 0, 0⟩, ⟨0, 1, 0⟩, "front", false, []⟩ : World).loaded = false
    ∧ (frameW (setCameraDirectionW
        ⟨false, ⟨0, 0, 0⟩, ⟨3, 0, 0⟩, ⟨0, 1, 0⟩, "front", false, []⟩ "front") 0 1).eye
      ≠ (⟨false, ⟨0, 0, 0⟩, ⟨3, 0, 0⟩, ⟨0, 1, 0⟩, "front", false, []⟩ : World).eye := by
  refine ⟨rfl, ?_⟩
  have hdist : (mkSession ⟨0, 0, 0⟩ ⟨3, 0, 0⟩ ⟨0, 1, 0⟩ ⟨0, 0, 1⟩ ⟨0, 1, 0⟩
      "front" false).dist = 3 := by
    simp only [mkSession]
    rw [show ((3 : ℝ) - 0) ^ 2 + ((0 : ℝ) - 0) ^ 2 + ((0 : ℝ) - 0) ^ 2 = 3 ^ 2 by norm_num,
      Real.sqrt_sq (by norm_num : (0 : ℝ) ≤ 3)]
  have hcomp := animEye_complete ⟨0, 0, 0⟩ ⟨3, 0, 0⟩ ⟨0, 1, 0⟩ ⟨0, 0, 1⟩ ⟨0, 1, 0⟩
    "front" false (by norm_num)
  have heye : (frameW (setCameraDirectionW
      ⟨false, ⟨0, 0, 0⟩, ⟨3, 0, 0⟩, ⟨0, 1, 0⟩, "front", false, []⟩ "front") 0 1).eye =
      animEye (mkSession ⟨0, 0, 0⟩ ⟨3, 0, 0⟩ ⟨0, 1, 0⟩ ⟨0, 0, 1⟩ ⟨0, 1, 0⟩
        "front" false) 1 := rfl
  rw [heye, hcomp, hdist]
  intro hcontr
  have hx := congrArg Vec3.x hcontr
  simp only [Vec3.add_x, Vec3.smul_x] at hx
  norm_num at hx

/-- C6 amended: the no-target guard exists only for `setScaleRuler`
(line 745), which is a no-op when no object is loaded; but
`setCameraDirection` (with a valid direction token) and `resetCamera`
have no such guard and schedule a camera animation session regardless of
the loaded state. -/
theorem c6_guard_asymmetry (st : RulerState) (e : Bool) (hst : st.loaded = false)
    (w : World) (_hw : w.loaded = false) (d : String) (dv uv : Vec3)
    (hd : dirTable d = some (dv, uv)) :
    setScaleRuler st e = st
    ∧ (setCameraDirectionW w d).sessions.length = w.sessions.length + 1
    ∧ (resetCameraW w).sessions.length = w.sessions.length + 1 := by
  refine ⟨?_, ?_, ?_⟩
  · unfold setScaleRuler
    rw [if_pos hst]
  · unfold setCameraDirectionW
    rw [hd]
    simp
  · simp only [resetCameraW]
    simp

/-- Witness for C6 at concrete unloaded states. -/
theorem c6_guard_asymmetry_witness :
    (⟨false, ⟨0, 0, 0⟩, none⟩ : RulerState).loaded = false
    ∧ setScaleRuler ⟨false, ⟨0, 0, 0⟩, none⟩ true = ⟨false, ⟨0, 0, 0⟩, none⟩
    ∧ (setCameraDirectionW
        ⟨false, ⟨0, 0, 0⟩, ⟨0, 0, 1⟩, ⟨0, 1, 0⟩, "front", false, []⟩
        "front").sessions.length =
      (⟨false, ⟨0, 0, 0⟩, ⟨0, 0, 1⟩, ⟨0, 1, 0⟩, "front", false,
        []⟩ : World).sessions.length + 1 :=
  ⟨rfl,
   (c6_guard_asymmetry ⟨false, ⟨0, 0, 0⟩, none⟩ true rfl
      ⟨false, ⟨0, 0, 0⟩, ⟨0, 0, 1⟩, ⟨0, 1, 0⟩, "front", false, []⟩ rfl "front"
      ⟨0, 0, 1⟩ ⟨0, 1, 0⟩ rfl).1,
   (c6_guard_asymmetry ⟨false, ⟨0, 0, 0⟩, none⟩ true rfl
      ⟨false, ⟨0, 0, 0⟩, ⟨0, 0, 1⟩, ⟨0, 1, 0⟩, "front", false, []⟩ rfl "front"
      ⟨0, 0, 1⟩ ⟨0, 1, 0⟩ rfl).2.1⟩

end Embedded
